import Mathlib

/-!
# tinythread experimental futures: `tinythread_experimental.h`

A shallow embedding of `async_result`, `packaged_task`, `future` and `async`.

* Heap objects (`async_result`, owned through `shared_ptr`) live in a `Memory`: a map
  from addresses to cells together with the next address `new` hands out.  A null
  `shared_ptr` / `unique_ptr` is `none`.  Cells are never freed in the model; a cell that
  nothing references any more cannot be observed.
* A wrapped callable (`std::function<R(Args...)>`) is a function `A → Except E R`:
  `Except.ok r` when the call returns `r`, `Except.error e` when it throws `e`.  An empty
  `std::function` is `none`.
* The first part of the file is the sequential reading: every operation runs from its
  first statement to its return, its throw, or the point where it parks in
  `condition_variable::wait`.  The second part (`Conc`) splits the operations at the
  acquisition and release of `mResultLock` and interleaves threads.
-/

namespace tthread

variable {A E R P : Type}

/-- How a call of an operation ends for the calling thread. -/
inductive Completion (E R : Type) where
  /-- the operation returned `r` -/
  | returned (r : R)
  /-- the operation threw `std::runtime_error(what)` -/
  | runtime_error (what : String)
  /-- an exception `e` thrown by the wrapped callable left the operation -/
  | raised (e : E)
  /-- the calling thread is parked in `mResultCondition.wait` and the loop guard
      `!mResult && !mException` still holds: the operation has not returned -/
  | blocked
  deriving DecidableEq

/-- The text of the error thrown by `future<R>::get`. -/
def invalid_future : String := "invalid future"

/-! ## `result_helper` -/

/-- `result_helper<R>`: `P` is `result_helper<R>::type`, the type of the object the cell
owns; `make r` is the object the new-expression inside `store` builds when the callable
returned `r`; `fetch` reads the result back out of that object. -/
structure result_helper (R P : Type) where
  make : R → P
  fetch : P → R

/-- The primary template: `type = R`, `store` does `new R(func())`, `fetch` returns `*r`. -/
def result_helper.primary (R : Type) : result_helper R R := ⟨fun r => r, fun r => r⟩

/-- The specialisation `result_helper<void>`: `type = bool`, `store` runs `func()` and then
does `new bool(true)`, `fetch(...)` returns nothing. -/
def result_helper.void : result_helper Unit Bool := ⟨fun _ => true, fun _ => ()⟩

/-- `result_helper<R>::store(receiver, func)` (and `result_helper_v<R>::store` with the
arguments `a`): `receiver.reset(new R(func(a)))`.  The value is the new content of
`receiver`; when `func` throws, the exception leaves `store` before `reset` runs. -/
def result_helper.store (H : result_helper R P) (func : A → Except E R) (a : A) :
    Except E (Option P) :=
  match func a with
  | .ok r => .ok (some (H.make r))
  | .error e => .error e

/-! ## `async_result` -/

/-- `async_result<R>`: the two data members.  `mResultLock` and `mResultCondition` carry
no data; who holds the lock is tracked in the concurrent part of the file. -/
structure async_result (P : Type) where
  mResult : Option P
  mException : Bool
  deriving DecidableEq

/-- The constructor `async_result() : mException(false) { }`. -/
def async_result.init : async_result P := ⟨none, false⟩

/-- `async_result::ready`: `return mResult || mException;`. -/
def async_result.ready (c : async_result P) : Bool :=
  c.mResult.isSome || c.mException

/-- The heap of cells. `cells c` is the cell at address `c`, `next` is the address the
next `new async_result<R>()` returns.  `calls` counts how often a wrapped callable has
been run; it is bookkeeping of the model and no operation reads it. -/
structure Memory (P : Type) where
  cells : Nat → async_result P
  next : Nat
  calls : Nat

/-- The expression `new async_result<R>()`: the address of the new cell and the heap that
holds it. -/
def Memory.alloc (m : Memory P) : Nat × Memory P :=
  (m.next, { m with cells := Function.update m.cells m.next async_result.init,
                    next := m.next + 1 })

/-- The assignment `result->mResult.reset(p)` on the cell at address `c`. -/
def Memory.setResult (m : Memory P) (c : Nat) (p : Option P) : Memory P :=
  { m with cells := Function.update m.cells c { m.cells c with mResult := p } }

/-- One more run of a wrapped callable. -/
def Memory.tick (m : Memory P) : Memory P := { m with calls := m.calls + 1 }

/-! ## `future` -/

/-- `future<R>`: its only member, `std::shared_ptr< async_result<R> > mResult`. -/
structure future where
  mResult : Option Nat
  deriving DecidableEq

/-- `future::valid`: `return mResult;`. -/
def future.valid (h : future) : Bool := h.mResult.isSome

/-- `future::is_ready`: `return valid() && mResult->ready();`. -/
def future.is_ready (h : future) (m : Memory P) : Bool :=
  match h.mResult with
  | none => false
  | some c => (m.cells c).ready

/-- `future::has_value`: `return is_ready();`. -/
def future.has_value (h : future) (m : Memory P) : Bool := h.is_ready m

/-- `future<R>::wait`.  A handle without a cell returns at once; otherwise the loop
`while (!result.mResult && !result.mException) wait(...)` is left when the cell is ready,
and the caller stays parked when it is not. -/
def future.wait (h : future) (m : Memory P) : Completion E Unit :=
  match h.mResult with
  | none => .returned ()                      -- if (!pResult) return;
  | some c =>
    if (m.cells c).mResult.isNone && !(m.cells c).mException then .blocked
    else .returned ()

/-- `future<R>::get`. -/
def future.get (H : result_helper R P) (h : future) (m : Memory P) : Completion E R :=
  match h.mResult with
  | none => .runtime_error invalid_future     -- if (!pResult) throw ...
  | some c =>
    match (h.wait m : Completion E Unit) with               -- wait();
    | .returned _ =>
      match (m.cells c).mException, (m.cells c).mResult with
      | false, some p => .returned (H.fetch p)
      | _, _ => .runtime_error invalid_future   -- if (mException || !mResult) throw ...
    | .runtime_error what => .runtime_error what
    | .raised e => .raised e
    | .blocked => .blocked

/-! ## `packaged_task` -/

/-- `packaged_task<R(Args...)>` (and, with `A = Unit`, the non-variadic
`packaged_task<R(void)>`): the data members `mFunc` and `mResult`.  The critical sections
under `mLock` contain no call that can park or run user code, so each is taken as one
step and `mLock` itself is not represented. -/
structure packaged_task (A E R : Type) where
  mFunc : Option (A → Except E R)
  mResult : Option Nat

/-- The constructor `packaged_task() { }`. -/
def packaged_task.empty : packaged_task A E R := ⟨none, none⟩

/-- The constructors `explicit packaged_task(F f) : mFunc(f) { }`. -/
def packaged_task.of (f : A → Except E R) : packaged_task A E R := ⟨some f, none⟩

/-- `packaged_task::swap(other)`: the pair is `(*this, other)` after the two `std::swap`s. -/
def packaged_task.swap (t other : packaged_task A E R) :
    packaged_task A E R × packaged_task A E R :=
  (⟨other.mFunc, other.mResult⟩, ⟨t.mFunc, t.mResult⟩)

/-- The move constructor `packaged_task(packaged_task&& other)`: a default-constructed
object swapped with `other`.  The pair is `(the new task, other afterwards)`. -/
def packaged_task.move (other : packaged_task A E R) :
    packaged_task A E R × packaged_task A E R :=
  packaged_task.swap packaged_task.empty other

/-- `operator bool`: `return !!mFunc;`. -/
def packaged_task.toBool (t : packaged_task A E R) : Bool := t.mFunc.isSome

/-- `packaged_task::get_future`. -/
def packaged_task.get_future (t : packaged_task A E R) (m : Memory P) :
    future × packaged_task A E R × Memory P :=
  match t.mResult with
  | none =>                                   -- if (!mResult) mResult.reset(new ...)
    let (c, m1) := m.alloc
    (⟨some c⟩, { t with mResult := some c }, m1)
  | some c => (⟨some c⟩, t, m)

/-- `packaged_task::reset`: `mResult.reset( );`. -/
def packaged_task.reset (t : packaged_task A E R) : packaged_task A E R :=
  { t with mResult := none }

/-- `packaged_task<R(Args...)>::operator()(Args&&...)` and `packaged_task<R()>::operator()()`.
The components are: how the call ends, the task afterwards, the heap afterwards. -/
def packaged_task.call (H : result_helper R P) (t : packaged_task A E R) (a : A)
    (m : Memory P) : Completion E Unit × packaged_task A E R × Memory P :=
  match t.mFunc with
  | none => (.returned (), t, m)              -- if (!(*this)) return;
  | some func =>
    -- lock guard(mLock); if (!mResult) mResult.reset(new ...); result = mResult;
    let (result, t1, m1) : Nat × packaged_task A E R × Memory P :=
      match t.mResult with
      | none => let (c, m1) := m.alloc; (c, { t with mResult := some c }, m1)
      | some c => (c, t, m)
    -- lock guardResult(result->mResultLock);
    match (m1.cells result).mResult with
    | some _ => (.returned (), t1, m1)        -- if(!result->mResult) is false; notify_all
    | none =>
      match H.store func a with
      | .ok p => (.returned (), t1, (m1.setResult result p).tick)   -- stored; notify_all
      | .error e => (.raised e, t1, m1.tick)  -- the exception unwinds out of operator()

/-! ## `async` -/

/-- Modelled from the spec: the thread class `threadt` of `tinythread_t.h`, which is not
part of the sources at hand.  `threadt thread(std::move(task)); thread.detach();` spawns
a detached worker whose whole life is to invoke the task it was given once.  The worker
owns the task object that the move constructor built; `Worker.run` is that one
invocation, `operator()(void*)`, which forwards to `(*this)()`. -/
structure Worker (E R : Type) where
  task : packaged_task Unit E R

/-- The single invocation a worker performs: how it ends and the heap afterwards. -/
def Worker.run (H : result_helper R P) (wk : Worker E R) (m : Memory P) :
    Completion E Unit × Memory P :=
  let (res, _, m1) := wk.task.call H () m
  (res, m1)

/-- `async(F f)`: the handle returned to the caller, the detached worker, and the heap. -/
def async (f : Unit → Except E R) (m : Memory P) : future × Worker E R × Memory P :=
  let task : packaged_task Unit E R := packaged_task.of f   -- task_type task(std::move(f));
  let (fut, task1, m1) := task.get_future m                 -- auto future = task.get_future();
  let (moved, _) := packaged_task.move task1                -- threadt thread(std::move(task));
  (fut, ⟨moved⟩, m1)                                        -- thread.detach(); return future;

/-- A callable object `f` that is handed extra values: `f args` is the call of `f` with
the values `args` in that order (a function object may accept several numbers of
arguments, through overloads or default arguments).  `bind f args` is
`std::bind(f, args...)`, the nullary callable that calls `f` with the bound values. -/
def bind {T : Type} (f : List T → Except E R) (args : List T) : Unit → Except E R :=
  fun _ => f args

/-- `async(F f, T t)`: `return async(std::bind(f, t));`. -/
def async1 {T : Type} (f : List T → Except E R) (t : T) (m : Memory P) :
    future × Worker E R × Memory P :=
  async (bind f [t]) m

/-- `async(F f, T t, U u)`: `return async(std::bind(f, t, u));`. -/
def async2 {T : Type} (f : List T → Except E R) (t u : T) (m : Memory P) :
    future × Worker E R × Memory P :=
  async (bind f [t, u]) m

/-- `async(F f, T t, U u, V v)`: `return async(std::bind(f, t, u, v));`. -/
def async3 {T : Type} (f : List T → Except E R) (t u v : T) (m : Memory P) :
    future × Worker E R × Memory P :=
  async (bind f [t, u, v]) m

/-- `async(F f, T t, U u, V v, W w)`: `return async(std::bind(f, t, u, v));`. -/
def async4 {T : Type} (f : List T → Except E R) (t u v _w : T) (m : Memory P) :
    future × Worker E R × Memory P :=
  async (bind f [t, u, v]) m

/-! ## Sequences of operations -/

/-- A program state: the heap and the task objects of the program, by number. -/
structure World (A E R P : Type) where
  mem : Memory P
  tasks : Nat → packaged_task A E R

/-- The operations a program can perform on its tasks, handles and cells. -/
inductive Op (A : Type) where
  /-- invoke task `i` with the arguments `a` -/
  | call (i : Nat) (a : A)
  | get_future (i : Nat)
  | reset (i : Nat)
  /-- move assignment of task `j` to task `i`: `operator=` calls `swap` -/
  | swap (i j : Nat)
  | get (h : future)
  | wait (h : future)
  | is_ready (h : future)
  | has_value (h : future)
  | valid (h : future)
  /-- `ready()` on the cell at address `c` -/
  | ready (c : Nat)

/-- `get_future` on task `i` of a program state. -/
def World.get_future (w : World A E R P) (i : Nat) : future × World A E R P :=
  let (h, t, m) := (w.tasks i).get_future w.mem
  (h, ⟨m, Function.update w.tasks i t⟩)

/-- Invocation of task `i` of a program state. -/
def World.call (H : result_helper R P) (w : World A E R P) (i : Nat) (a : A) :
    Completion E Unit × World A E R P :=
  let (res, t, m) := (w.tasks i).call H a w.mem
  (res, ⟨m, Function.update w.tasks i t⟩)

/-- The state after one operation.  `get`, `wait`, `is_ready`, `has_value`, `valid` and
`ready` take the state read-only (the C++ members are `const` or write only locals), so
whatever they report, the state after them is the state before. -/
def World.step (H : result_helper R P) (w : World A E R P) : Op A → World A E R P
  | .call i a => (w.call H i a).2
  | .get_future i => (w.get_future i).2
  | .reset i => ⟨w.mem, Function.update w.tasks i (w.tasks i).reset⟩
  | .swap i j =>
    let (ti, tj) := packaged_task.swap (w.tasks i) (w.tasks j)
    ⟨w.mem, Function.update (Function.update w.tasks j tj) i ti⟩
  | .get _ => w
  | .wait _ => w
  | .is_ready _ => w
  | .has_value _ => w
  | .valid _ => w
  | .ready _ => w

/-- The state after a sequence of operations, performed from left to right. -/
def World.run (H : result_helper R P) (w : World A E R P) (ops : List (Op A)) :
    World A E R P :=
  ops.foldl (World.step H) w

/-- Calls `get_future` on task `i` `n` times in a row; the handles in the order they were
returned, and the state afterwards. -/
def World.get_futures (w : World A E R P) (i : Nat) : Nat → List future × World A E R P
  | 0 => ([], w)
  | n + 1 =>
    let (h, w1) := w.get_future i
    let (hs, w2) := World.get_futures w1 i n
    (h :: hs, w2)

/-- Whether an operation changes which cell task `i` is attached to by other means than
creating one: `reset` on it, or a swap it takes part in. -/
def Op.detaches (i : Nat) : Op A → Bool
  | .reset k => k == i
  | .swap k j => k == i || j == i
  | _ => false

/-- The heap of a program that has not created a cell yet. -/
def Memory.empty : Memory P := ⟨fun _ => async_result.init, 0, 0⟩

/-- The cell `d` is a later state of the cell `c`: the failure flag is the same and a
stored result is still the stored result. -/
def async_result.evolves (c d : async_result P) : Prop :=
  d.mException = c.mException ∧ ∀ p, c.mResult = some p → d.mResult = some p

/-- Task `i` holds the callable `f`, and if it has a cell, that cell exists and nothing
has been published into it. -/
def World.armed (w : World A E R P) (i : Nat) (f : A → Except E R) : Prop :=
  (w.tasks i).mFunc = some f ∧
  ∀ c, (w.tasks i).mResult = some c → c < w.mem.next ∧ w.mem.cells c = async_result.init


/-! ## Concrete programs used as examples -/

/-- A state in which cell 0 holds the result 5 and task 0, wrapping a callable that
returns its argument, is attached to it. -/
def published_world : World Nat String Nat Nat :=
  ⟨⟨fun _ => ⟨some 5, false⟩, 1, 1⟩, fun _ => ⟨some (fun n => .ok n), some 0⟩⟩

/-- The exception object of the examples. -/
def boom : String := "boom"

/-- Scenario E: a task around a callable that throws `boom`. -/
def scenarioE_task : packaged_task Unit String Nat := packaged_task.of (fun _ => .error boom)

/-- Scenario E: the handle obtained from the task before it is invoked. -/
def scenarioE_handle : future := (scenarioE_task.get_future (Memory.empty : Memory Nat)).1

/-- Scenario E: `get_future`, then one invocation. -/
def scenarioE : Completion String Unit × packaged_task Unit String Nat × Memory Nat :=
  let r := scenarioE_task.get_future (Memory.empty : Memory Nat)
  r.2.1.call (result_helper.primary Nat) () r.2.2

/-- Scenario C: the handle obtained from a default-constructed task. -/
def scenarioC_handle : future :=
  ((packaged_task.empty : packaged_task Unit String Nat).get_future
    (Memory.empty : Memory Nat)).1

/-- Scenario C: `get_future` on a default-constructed task, then one invocation. -/
def scenarioC : Completion String Unit × packaged_task Unit String Nat × Memory Nat :=
  let r := (packaged_task.empty : packaged_task Unit String Nat).get_future
    (Memory.empty : Memory Nat)
  r.2.1.call (result_helper.primary Nat) () r.2.2

/-- Scenario D: a handle without a cell. -/
def scenarioD_handle : future := ⟨none⟩

/-- A program whose tasks wrap a callable that returns its argument and have no cell
yet. -/
def fresh_world : World Nat String Nat Nat :=
  ⟨Memory.empty, fun _ => packaged_task.of (fun n => .ok n)⟩

/-- A task that has been invoked: it is attached to cell 0, which holds 5. -/
def invoked_task : packaged_task Nat String Nat := ⟨some (fun n => .ok n), some 0⟩

/-- The heap that goes with `invoked_task`. -/
def invoked_memory : Memory Nat := ⟨fun _ => ⟨some 5, false⟩, 1, 1⟩

/-- A function object that adds up the values it is called with; it can be called with
any number of them (a fourth parameter with default value 0, say). -/
def add_all (args : List Nat) : Except String Nat := .ok args.sum

/-- What the handle of a launch delivers once the worker has made its one invocation. -/
def delivered (launch : future × Worker String Nat × Memory Nat) : Completion String Nat :=
  launch.1.get (result_helper.primary Nat)
    (launch.2.1.run (result_helper.primary Nat) launch.2.2).2

/-! ## Threads

The operations again, now cut at the points where a thread can be overtaken by another
one: where it constructs a `lock` on `mResultLock` (which waits while another thread
holds that mutex), where the wrapped callable runs, and where it is parked in
`mResultCondition.wait`.  The mutex, `lock_guard` and the condition variable come from
`tinythread.h`, which is not among the sources; `State.acquire`, `State.release`,
`State.park` and `State.wake` model them from their contract.  `notify_all` needs no
state: a parked thread may return from `wait` at any time the mutex is free (after
`notify_all`, or spuriously), the loop around `wait` re-tests its guard in either case,
and the properties proved below hold whenever a parked thread wakes.
-/

namespace Conc

/-- Who called `future::wait`: client code, or `future::get`. -/
inductive Caller where
  | user
  | get
  deriving DecidableEq

/-- An operation a thread can enter.  `swap` is not among them: a move of a task
concurrent with other uses of it is excluded by the contract of `packaged_task`. -/
inductive Request (A : Type) where
  | call (i : Nat) (a : A)
  | get_future (i : Nat)
  | reset (i : Nat)
  | get (h : future)
  | wait (h : future)
  | is_ready (h : future)
  | has_value (h : future)
  | ready (c : Nat)

/-- Where a thread stands. -/
inductive Frame (A E R : Type) where
  /-- not inside any operation -/
  | idle
  /-- `operator()`: at its first statement.  The test `if (!(*this)) return;` and the
      block under `mLock` that follows are one step: between them other threads can
      change only `mResult` of the task, which the block reads afresh -/
  | call_entry (i : Nat) (a : A)
  /-- `operator()`: `result` is the cell at `c`; about to construct `guardResult` -/
  | call_lock (func : A → Except E R) (a : A) (c : Nat)
  /-- `operator()`: holds `guardResult`; about to test `!result->mResult` -/
  | call_locked (func : A → Except E R) (a : A) (c : Nat)
  /-- `operator()`: inside `store`, the wrapped callable is executing -/
  | call_running (func : A → Except E R) (a : A) (c : Nat)
  /-- `wait()`: at its first statement -/
  | wait_entry (h : future)
  /-- `get()`: at its first statement -/
  | get_entry (h : future)
  /-- `wait()`: about to construct `guard` on the cell at `c` -/
  | wait_lock (k : Caller) (c : Nat)
  /-- `wait()`: holds `guard`; about to test the loop guard -/
  | wait_locked (k : Caller) (c : Nat)
  /-- `wait()`: parked inside `mResultCondition.wait`, the mutex released -/
  | wait_parked (k : Caller) (c : Nat)
  /-- `get()`: `wait()` has returned; about to test `mException || !mResult` -/
  | get_check (c : Nat)
  /-- `is_ready()` / `has_value()`: at the first statement -/
  | is_ready_entry (h : future)
  /-- `ready()`: about to construct `guard` -/
  | ready_lock (c : Nat)
  /-- `ready()`: holds `guard`; about to evaluate `mResult || mException` -/
  | ready_locked (c : Nat)
  /-- `get_future()`: at its first statement -/
  | get_future_entry (i : Nat)
  /-- `reset()`: at its first statement -/
  | reset_entry (i : Nat)
  /-- `operator()`, `wait()` or `reset()` has ended -/
  | done_unit (res : Completion E Unit)
  /-- `get()` has ended -/
  | done_value (res : Completion E R)
  /-- `is_ready()`, `has_value()` or `ready()` has returned `b` -/
  | done_bool (b : Bool)
  /-- `get_future()` has returned `h` -/
  | done_future (h : future)

/-- The frame in which a thread enters an operation. -/
def Request.entry : Request A → Frame A E R
  | .call i a => .call_entry i a
  | .get_future i => .get_future_entry i
  | .reset i => .reset_entry i
  | .get h => .get_entry h
  | .wait h => .wait_entry h
  | .is_ready h => .is_ready_entry h
  | .has_value h => .is_ready_entry h       -- has_value() is is_ready()
  | .ready c => .ready_lock c

/-- Whether the thread is between operations. -/
def Frame.finished : Frame A E R → Bool
  | .idle => true
  | .done_unit _ => true
  | .done_value _ => true
  | .done_bool _ => true
  | .done_future _ => true
  | _ => false

/-- Whether a thread in this frame holds `mResultLock` of the cell at `c`. -/
def Frame.holds : Frame A E R → Nat → Bool
  | .call_locked _ _ d, c => d == c
  | .call_running _ _ d, c => d == c
  | .wait_locked _ d, c => d == c
  | .ready_locked d, c => d == c
  | _, _ => false

/-- The state of a program with threads: heap, task objects, for every cell address the
thread holding `mResultLock` of that cell (if any), and the frame of every thread. -/
structure State (A E R P : Type) where
  mem : Memory P
  tasks : Nat → packaged_task A E R
  locks : Nat → Option Nat
  threads : Nat → Frame A E R

/-- The thread `tid` moves to frame `fr`. -/
def State.goto (s : State A E R P) (tid : Nat) (fr : Frame A E R) : State A E R P :=
  { s with threads := Function.update s.threads tid fr }

/-- Modelled from the spec: the mutual-exclusion primitive of `tinythread.h` (scoped
acquire, with guaranteed release on all exit paths).  This is the construction of a
`lock` on `mResultLock` of the cell at `c` by thread `tid`, which then goes on to `fr`:
possible when the mutex is free, and not while another thread holds it. -/
def State.acquire (s : State A E R P) (tid c : Nat) (fr : Frame A E R) :
    Option (State A E R P) :=
  match s.locks c with
  | none => some ({ s with locks := Function.update s.locks c (some tid) }.goto tid fr)
  | some _ => none

/-- Modelled from the spec: the mutual-exclusion primitive of `tinythread.h`.  This is
the end of the scope of the `lock` that thread `tid` holds on `mResultLock` of the cell
at `c`, by return or by unwinding; the thread goes on to `fr`. -/
def State.release (s : State A E R P) (tid c : Nat) (fr : Frame A E R) : State A E R P :=
  { s with locks := Function.update s.locks c none }.goto tid fr

/-- Modelled from the spec: the condition variable of `tinythread.h` (wait while holding
the lock: releases the lock while parked, reacquires on return).  This is the first
half of `mResultCondition.wait(mResultLock)`: the thread gives up the mutex and parks. -/
def State.park (s : State A E R P) (tid c : Nat) (k : Caller) : State A E R P :=
  s.release tid c (.wait_parked k c)

/-- Modelled from the spec: the condition variable of `tinythread.h`.  This is the second
half of `mResultCondition.wait(mResultLock)`: the parked thread takes the mutex again
and `wait` returns into the loop.  It can happen whenever the mutex is free. -/
def State.wake (s : State A E R P) (tid c : Nat) (k : Caller) : Option (State A E R P) :=
  s.acquire tid c (.wait_locked k c)

/-- The next step of thread `tid`, or `none` when the thread cannot move in this state:
it is between operations, or it needs a mutex that is held. -/
def advance (H : result_helper R P) (s : State A E R P) (tid : Nat) :
    Option (State A E R P) :=
  match s.threads tid with
  -- packaged_task::operator()
  | .call_entry i a =>
    match (s.tasks i).mFunc with
    | none => some (s.goto tid (.done_unit (.returned ())))   -- if (!(*this)) return;
    | some func =>
      match (s.tasks i).mResult with                          -- the block under mLock
      | none =>
        some ({ s with mem := s.mem.alloc.2,
                       tasks := Function.update s.tasks i
                         { s.tasks i with mResult := some s.mem.alloc.1 } }.goto tid
          (.call_lock func a s.mem.alloc.1))
      | some c => some (s.goto tid (.call_lock func a c))
  | .call_lock func a c => s.acquire tid c (.call_locked func a c)
  | .call_locked func a c =>
    match (s.mem.cells c).mResult with
    | some _ => some (s.release tid c (.done_unit (.returned ())))  -- notify_all; return
    | none => some (s.goto tid (.call_running func a c))            -- enters store
  | .call_running func a c =>
    match H.store func a with
    | .ok p =>                                 -- reset(new R(...)); notify_all; return
      some ({ s with mem := (s.mem.setResult c p).tick }.release tid c
        (.done_unit (.returned ())))
    | .error e =>                              -- unwinding destroys guardResult
      some ({ s with mem := s.mem.tick }.release tid c (.done_unit (.raised e)))
  -- future::wait, called by the client or by get
  | .wait_entry h =>
    match h.mResult with
    | none => some (s.goto tid (.done_unit (.returned ())))   -- if (!pResult) return;
    | some c => some (s.goto tid (.wait_lock .user c))
  | .get_entry h =>
    match h.mResult with
    | none => some (s.goto tid (.done_value (.runtime_error invalid_future)))
    | some c => some (s.goto tid (.wait_lock .get c))          -- wait();
  | .wait_lock k c => s.acquire tid c (.wait_locked k c)
  | .wait_locked k c =>
    if (s.mem.cells c).mResult.isNone && !(s.mem.cells c).mException then
      some (s.park tid c k)                                    -- mResultCondition.wait
    else
      match k with
      | .user => some (s.release tid c (.done_unit (.returned ())))
      | .get => some (s.release tid c (.get_check c))
  | .wait_parked k c => s.wake tid c k
  | .get_check c =>
    match (s.mem.cells c).mException, (s.mem.cells c).mResult with
    | false, some p => some (s.goto tid (.done_value (.returned (H.fetch p))))
    | _, _ => some (s.goto tid (.done_value (.runtime_error invalid_future)))
  -- future::is_ready and async_result::ready
  | .is_ready_entry h =>
    match h.mResult with
    | none => some (s.goto tid (.done_bool false))             -- valid() is false
    | some c => some (s.goto tid (.ready_lock c))
  | .ready_lock c => s.acquire tid c (.ready_locked c)
  | .ready_locked c => some (s.release tid c (.done_bool (s.mem.cells c).ready))
  -- get_future and reset: one critical section under mLock each
  | .get_future_entry i =>
    some ({ s with mem := ((s.tasks i).get_future s.mem).2.2,
                   tasks := Function.update s.tasks i ((s.tasks i).get_future s.mem).2.1 }.goto
      tid (.done_future ((s.tasks i).get_future s.mem).1))
  | .reset_entry i =>
    some ({ s with tasks := Function.update s.tasks i (s.tasks i).reset }.goto tid
      (.done_unit (.returned ())))
  | .idle => none
  | .done_unit _ => none
  | .done_value _ => none
  | .done_bool _ => none
  | .done_future _ => none

/-- What happens next in a program: a thread that is between operations enters one, or
a thread takes its next step. -/
inductive Event (A : Type) where
  | start (tid : Nat) (req : Request A)
  | step (tid : Nat)

/-- The state after an event.  An event that cannot happen in the state (entering an
operation while inside one, a step of a thread that cannot move) leaves it as it is. -/
def next (H : result_helper R P) (s : State A E R P) : Event A → State A E R P
  | .start tid req => if (s.threads tid).finished then s.goto tid req.entry else s
  | .step tid => (advance H s tid).getD s

/-- The state after a sequence of events. -/
def exec (H : result_helper R P) (s : State A E R P) (evs : List (Event A)) :
    State A E R P :=
  evs.foldl (next H) s

/-- A program before any thread has entered an operation: every thread idle, every
mutex free. -/
def initial (w : World A E R P) : State A E R P :=
  ⟨w.mem, w.tasks, fun _ => none, fun _ => .idle⟩

/-- The mutexes are consistent with the frames (a thread whose frame holds a mutex is
recorded as its holder), and while a callable runs for the cell at `c` that cell has no
result. -/
def State.ok (s : State A E R P) : Prop :=
  (∀ tid c, (s.threads tid).holds c = true → s.locks c = some tid) ∧
  (∀ tid func a c, s.threads tid = .call_running func a c → (s.mem.cells c).mResult = none)

end Conc

/-! ## Concrete programs with threads -/

/-- Scenario A as a program: task 0 wraps a callable that returns 42. -/
def scenarioA_world : World Unit String Nat Nat :=
  ⟨Memory.empty, fun _ => packaged_task.of (fun _ => .ok 42)⟩

/-- Thread 0 obtains a handle and invokes task 0 up to the point where the callable is
executing; thread 1 then calls `is_ready()` on the handle and reaches `ready()`. -/
def poll_events : List (Conc.Event Unit) :=
  [.start 0 (.get_future 0), .step 0,
   .start 0 (.call 0 ()), .step 0, .step 0, .step 0,
   .start 1 (.is_ready ⟨some 0⟩), .step 1]

/-- The state after `poll_events`. -/
def poll_state : Conc.State Unit String Nat Nat :=
  Conc.exec (result_helper.primary Nat) (Conc.initial scenarioA_world) poll_events

/-- Thread 0 obtains a handle; threads 1 and 2 call `wait()` on it and park; thread 0
invokes the task to the end; thread 2 wakes and holds the mutex again. -/
def waiters_events : List (Conc.Event Unit) :=
  [.start 0 (.get_future 0), .step 0,
   .start 1 (.wait ⟨some 0⟩), .step 1, .step 1, .step 1,
   .start 2 (.wait ⟨some 0⟩), .step 2, .step 2, .step 2,
   .start 0 (.call 0 ()), .step 0, .step 0, .step 0, .step 0,
   .step 2]

/-- Afterwards thread 1 wakes, returns from `wait()`, and calls `get()` up to the point
where its inner `wait()` has returned. -/
def waiters_later : List (Conc.Event Unit) :=
  [.step 1, .step 1, .start 1 (.get ⟨some 0⟩), .step 1, .step 1, .step 1]

end tthread

/-! # Theorems -/

namespace tthread

variable {A E R P : Type}

theorem async_result.evolves_refl (c : async_result P) : c.evolves c := ⟨rfl, fun _ h => h⟩

theorem async_result.evolves_trans {c d e : async_result P} (h1 : c.evolves d)
    (h2 : d.evolves e) : c.evolves e :=
  ⟨h2.1.trans h1.1, fun p hp => h2.2 p (h1.2 p hp)⟩

theorem async_result.ready_of_evolves {c d : async_result P} (h : c.evolves d)
    (hr : c.ready = true) : d.ready = true := by
  obtain ⟨he, hres⟩ := h
  unfold async_result.ready at *
  cases hc : c.mResult with
  | some p => simp [hres p hc]
  | none => simp [hc] at hr; simp [he, hr]

/-- What `get_future` does to the heap: cells that exist keep their content. -/
theorem packaged_task.get_future_frame (t : packaged_task A E R) (m : Memory P) (c : Nat)
    (hc : c < m.next) :
    c < (t.get_future m).2.2.next ∧ (t.get_future m).2.2.cells c = m.cells c := by
  unfold packaged_task.get_future
  cases t.mResult with
  | some d => exact ⟨hc, rfl⟩
  | none =>
    simp only [Memory.alloc]
    exact ⟨Nat.lt_succ_of_lt hc, Function.update_noteq (Nat.ne_of_lt hc) _ _⟩

/-- What an invocation does to the heap: cells that exist evolve. -/
theorem packaged_task.call_frame (H : result_helper R P) (t : packaged_task A E R) (a : A)
    (m : Memory P) (c : Nat) (hc : c < m.next) :
    c < (t.call H a m).2.2.next ∧ (m.cells c).evolves ((t.call H a m).2.2.cells c) := by
  unfold packaged_task.call
  cases hf : t.mFunc with
  | none => exact ⟨hc, async_result.evolves_refl _⟩
  | some func =>
    cases hr : t.mResult with
    | none =>
      simp only [Memory.alloc]
      split
      · refine ⟨Nat.lt_succ_of_lt hc, ?_⟩
        simp only
        rw [Function.update_noteq (Nat.ne_of_lt hc)]
        exact async_result.evolves_refl _
      · split
        · refine ⟨Nat.lt_succ_of_lt hc, ?_⟩
          simp only [Memory.tick, Memory.setResult]
          rw [Function.update_noteq (Nat.ne_of_lt hc), Function.update_noteq (Nat.ne_of_lt hc)]
          exact async_result.evolves_refl _
        · refine ⟨Nat.lt_succ_of_lt hc, ?_⟩
          simp only [Memory.tick]
          rw [Function.update_noteq (Nat.ne_of_lt hc)]
          exact async_result.evolves_refl _
    | some d =>
      simp only
      split
      · exact ⟨hc, async_result.evolves_refl _⟩
      · rename_i hnone
        split
        · refine ⟨hc, ?_⟩
          simp only [Memory.tick, Memory.setResult]
          by_cases hcd : c = d
          · subst hcd
            rw [Function.update_same]
            exact ⟨rfl, fun p hp => by rw [hnone] at hp; cases hp⟩
          · rw [Function.update_noteq hcd]
            exact async_result.evolves_refl _
        · exact ⟨hc, async_result.evolves_refl _⟩

/-- One operation: cells that exist still exist and evolve. -/
theorem World.step_frame (H : result_helper R P) (w : World A E R P) (op : Op A) (c : Nat)
    (hc : c < w.mem.next) :
    c < (w.step H op).mem.next ∧ (w.mem.cells c).evolves ((w.step H op).mem.cells c) := by
  cases op with
  | call i a => exact packaged_task.call_frame H (w.tasks i) a w.mem c hc
  | get_future i =>
    have h := packaged_task.get_future_frame (w.tasks i) w.mem c hc
    refine ⟨h.1, ?_⟩
    show (w.mem.cells c).evolves (((w.tasks i).get_future w.mem).2.2.cells c)
    rw [h.2]
    exact async_result.evolves_refl _
  | reset i => exact ⟨hc, async_result.evolves_refl _⟩
  | swap i j => exact ⟨hc, async_result.evolves_refl _⟩
  | get h => exact ⟨hc, async_result.evolves_refl _⟩
  | wait h => exact ⟨hc, async_result.evolves_refl _⟩
  | is_ready h => exact ⟨hc, async_result.evolves_refl _⟩
  | has_value h => exact ⟨hc, async_result.evolves_refl _⟩
  | valid h => exact ⟨hc, async_result.evolves_refl _⟩
  | ready d => exact ⟨hc, async_result.evolves_refl _⟩

/-- Any sequence of operations: cells that exist still exist and evolve. -/
theorem World.run_frame (H : result_helper R P) (ops : List (Op A)) :
    ∀ (w : World A E R P) (c : Nat), c < w.mem.next →
      c < (w.run H ops).mem.next ∧ (w.mem.cells c).evolves ((w.run H ops).mem.cells c) := by
  induction ops with
  | nil => intro w c hc; exact ⟨hc, async_result.evolves_refl _⟩
  | cons op ops ih =>
    intro w c hc
    have h1 := World.step_frame H w op c hc
    have h2 := ih (w.step H op) c h1.1
    exact ⟨h2.1, async_result.evolves_trans h1.2 h2.2⟩

/-- A handle bound to a ready cell reports the same after the cell evolved. -/
theorem future.get_of_evolves (H : result_helper R P) (h : future) (m m1 : Memory P) (c : Nat)
    (hh : h.mResult = some c) (hr : (m.cells c).ready = true)
    (hev : (m.cells c).evolves (m1.cells c)) :
    h.is_ready m1 = true ∧ (h.wait m1 : Completion E Unit) = .returned () ∧
      (h.get H m1 : Completion E R) = h.get H m := by
  have hr1 := async_result.ready_of_evolves hev hr
  obtain ⟨he, hres⟩ := hev
  unfold async_result.ready at hr hr1
  refine ⟨by simp [future.is_ready, hh, async_result.ready, hr1], ?_, ?_⟩
  · cases hx : (m1.cells c).mResult <;> cases hy : (m1.cells c).mException <;>
      simp_all [future.wait]
  · cases hx : (m.cells c).mResult with
    | some p =>
      have := hres p hx
      cases hy : (m.cells c).mException <;> simp_all [future.get, future.wait]
    | none =>
      have hy : (m.cells c).mException = true := by simpa [hx] using hr
      cases hz : (m1.cells c).mResult <;> simp_all [future.get, future.wait]

/-- Invoking a task whose cell already holds a result changes nothing at all. -/
theorem packaged_task.call_published (H : result_helper R P) (t : packaged_task A E R)
    (a : A) (m : Memory P) (c : Nat) (p : P) (ht : t.mResult = some c)
    (hp : (m.cells c).mResult = some p) :
    t.call H a m = (.returned (), t, m) := by
  unfold packaged_task.call
  cases hf : t.mFunc with
  | none => rfl
  | some func => simp [ht, hp]

/-- C2. Write-once cell. Take any program state, any cell `c` that exists in it and is
ready, and any sequence of operations (invocations, `get_future`, `reset`, swaps, `get`,
`wait`, `is_ready`, `has_value`, `valid`, `ready`).  Afterwards the cell is still ready,
its failure flag is the same, a stored result is untouched (the whole cell is), and
`get` on a handle bound to the cell reports what it reported before.  Invoking a task
whose cell holds a result returns without running the callable and leaves the whole
program state as it was.  Since this holds from every state, readiness, once reached,
is never lost, so `ready()` changes from false to true at most once. -/
theorem C2_write_once (H : result_helper R P) (w : World A E R P) (ops : List (Op A))
    (c : Nat) (hc : c < w.mem.next) (hr : (w.mem.cells c).ready = true) :
    ((w.run H ops).mem.cells c).ready = true ∧
    ((w.run H ops).mem.cells c).mException = (w.mem.cells c).mException ∧
    (∀ p, (w.mem.cells c).mResult = some p → (w.run H ops).mem.cells c = w.mem.cells c) ∧
    (∀ h : future, h.mResult = some c →
      (h.get H (w.run H ops).mem : Completion E R) = h.get H w.mem) ∧
    (∀ i a p, (w.tasks i).mResult = some c → (w.mem.cells c).mResult = some p →
      w.call H i a = (.returned (), w)) := by
  have hfr := (World.run_frame H ops w c hc).2
  refine ⟨async_result.ready_of_evolves hfr hr, hfr.1, ?_, ?_, ?_⟩
  · intro p hp
    have h1 := hfr.1
    have h2 := hfr.2 p hp
    cases hx : (w.run H ops).mem.cells c with
    | mk r e =>
      cases hy : w.mem.cells c with
      | mk r0 e0 =>
        rw [hx, hy] at h1
        rw [hx] at h2
        rw [hy] at hp
        simp only at h1 h2 hp
        rw [h1, h2, hp]
  · intro h hh
    exact (future.get_of_evolves H h w.mem (w.run H ops).mem c hh hr hfr).2.2
  · intro i a p hi hp
    unfold World.call
    rw [packaged_task.call_published H (w.tasks i) a w.mem c p hi hp]
    simp

theorem C2_write_once_witness :
    0 < published_world.mem.next ∧ (published_world.mem.cells 0).ready = true ∧
    ((published_world.run (result_helper.primary Nat)
        [.call 0 7, .get_future 0, .wait ⟨some 0⟩, .reset 0, .call 0 9]).mem.cells 0).ready
      = true :=
  ⟨by decide, by decide,
    (C2_write_once (result_helper.primary Nat) published_world
      [.call 0 7, .get_future 0, .wait ⟨some 0⟩, .reset 0, .call 0 9] 0
      (by decide) (by decide)).1⟩

/-- `get_future` on an armed task: the task stays armed, and the handle is bound to the
cell the task is attached to afterwards. -/
theorem World.get_future_armed (w : World A E R P) (i : Nat) (f : A → Except E R)
    (hw : w.armed i f) :
    (w.get_future i).2.armed i f ∧
      (w.get_future i).1.mResult = ((w.get_future i).2.tasks i).mResult ∧
      (∀ c, (w.tasks i).mResult = some c → ((w.get_future i).2.tasks i).mResult = some c) ∧
      ((w.get_future i).2.tasks i).mResult ≠ none := by
  obtain ⟨hf, hc⟩ := hw
  unfold World.get_future packaged_task.get_future World.armed
  cases hr : (w.tasks i).mResult with
  | none => simp [Memory.alloc, hf, async_result.init]
  | some c => simpa [hf, hr] using hc c hr

/-- Repeated `get_future` on an armed task: the task stays armed and every handle is bound
to the cell the task is attached to in the end. -/
theorem World.get_futures_armed (i : Nat) (f : A → Except E R) (n : Nat) :
    ∀ w : World A E R P, w.armed i f →
      (w.get_futures i n).2.armed i f ∧
      (∀ h ∈ (w.get_futures i n).1, h.mResult = ((w.get_futures i n).2.tasks i).mResult ∧
        h.mResult ≠ none) ∧
      (∀ c, (w.tasks i).mResult = some c → ((w.get_futures i n).2.tasks i).mResult = some c)
      := by
  induction n with
  | zero => intro w hw; exact ⟨hw, by simp [World.get_futures], fun c hc => hc⟩
  | succ n ih =>
    intro w hw
    obtain ⟨h1, h2, h3, h4⟩ := World.get_future_armed w i f hw
    obtain ⟨g1, g2, g3⟩ := ih (w.get_future i).2 h1
    refine ⟨g1, ?_, fun c hc => g3 c (h3 c hc)⟩
    intro h hh
    simp only [World.get_futures, List.mem_cons] at hh
    rcases hh with rfl | hh
    · cases hx : ((w.get_future i).2.tasks i).mResult with
      | none => exact absurd hx h4
      | some c =>
        have := g3 c hx
        simp only [World.get_futures]
        rw [h2, hx, this]
        simp
    · exact g2 h hh

/-- Invoking an armed task whose callable returns `v`: the invocation returns, and the
task is attached to an existing cell that holds exactly the stored `v`. -/
theorem World.call_armed (H : result_helper R P) (w : World A E R P) (i : Nat)
    (f : A → Except E R) (a : A) (v : R) (hw : w.armed i f) (hv : f a = .ok v) :
    (w.call H i a).1 = .returned () ∧
    ∃ c, ((w.call H i a).2.tasks i).mResult = some c ∧ c < (w.call H i a).2.mem.next ∧
      (w.call H i a).2.mem.cells c = ⟨some (H.make v), false⟩ ∧
      ∀ c0, (w.tasks i).mResult = some c0 → c0 = c := by
  obtain ⟨hf, hc⟩ := hw
  unfold World.call packaged_task.call
  cases hr : (w.tasks i).mResult with
  | none =>
    simp [hf, Memory.alloc, result_helper.store, hv, Memory.setResult, Memory.tick,
      async_result.init]
  | some c =>
    obtain ⟨h1, h2⟩ := hc c hr
    simp [hf, hr, h1, h2, result_helper.store, hv, Memory.setResult, Memory.tick,
      async_result.init]

/-- `get_future` on a task that has a cell returns a handle to that cell and changes
nothing. -/
theorem World.get_future_attached (w : World A E R P) (i c : Nat)
    (hr : (w.tasks i).mResult = some c) : w.get_future i = (⟨some c⟩, w) := by
  unfold World.get_future packaged_task.get_future
  simp [hr]

theorem World.get_futures_attached (i c : Nat) (n : Nat) :
    ∀ w : World A E R P, (w.tasks i).mResult = some c →
      w.get_futures i n = (List.replicate n ⟨some c⟩, w) := by
  induction n with
  | zero => intro w _; rfl
  | succ n ih =>
    intro w hr
    simp only [World.get_futures, World.get_future_attached w i c hr, ih w hr]
    rfl
/-- C1. Let task `i` hold a callable `f` with `f a = v` (returning normally), its cell,
if it has one already, not yet published into.  Obtain `n` handles with `get_future`,
invoke the task once with `a`, obtain `k` more handles.  The invocation returns, and for
every one of the `n + k` handles, in the state reached and in every state reached from it
by any further operations (so on the first `get` and on each repeated one):
`is_ready()` is true and `get()` returns `v`. -/
theorem C1_value_delivered (w : World A E R R) (i : Nat) (f : A → Except E R) (a : A)
    (v : R) (n k : Nat) (rest : List (Op A)) (hw : w.armed i f) (hv : f a = .ok v) :
    let H := result_helper.primary R
    let before := w.get_futures i n
    let invoked := before.2.call H i a
    let after := invoked.2.get_futures i k
    invoked.1 = .returned () ∧
    ∀ h ∈ before.1 ++ after.1,
      h.is_ready (after.2.run H rest).mem = true ∧
      (h.get H (after.2.run H rest).mem : Completion E R) = .returned v := by
  intro H before invoked after
  obtain ⟨b1, b2, b3⟩ := World.get_futures_armed i f n w hw
  obtain ⟨c1, c, c2, c3, c4, c5⟩ := World.call_armed H before.2 i f a v b1 hv
  have hafter : after = (List.replicate k ⟨some c⟩, invoked.2) :=
    World.get_futures_attached i c k invoked.2 c2
  refine ⟨c1, ?_⟩
  have key : ∀ h : future, h.mResult = some c →
      h.is_ready (after.2.run H rest).mem = true ∧
      (h.get H (after.2.run H rest).mem : Completion E R) = .returned v := by
    intro h hh
    rw [hafter]
    have hready : (invoked.2.mem.cells c).ready = true := by
      rw [c4]; rfl
    have hfr := (World.run_frame H rest invoked.2 c c3).2
    obtain ⟨g1, _, g3⟩ := future.get_of_evolves (E := E) H h invoked.2.mem
      (invoked.2.run H rest).mem c hh hready hfr
    refine ⟨g1, ?_⟩
    rw [g3]
    have c4b : invoked.2.mem.cells c = ⟨some v, false⟩ := c4
    simp [future.get, future.wait, hh, c4b, H, result_helper.primary]
  intro h hh
  rcases List.mem_append.1 hh with hb | ha
  · obtain ⟨e1, e2⟩ := b2 h hb
    cases hx : (before.2.tasks i).mResult with
    | none => rw [hx] at e1; exact absurd e1 e2
    | some c0 =>
      rw [hx] at e1
      rw [c5 c0 hx] at e1
      exact key h e1
  · rw [hafter] at ha
    have := List.eq_of_mem_replicate ha
    exact key h (by rw [this])

/-- Scenario A as a run of operations: a callable returning 42, one handle before and one
after the invocation, then a reset and a second invocation. -/
theorem C1_value_delivered_witness :
    (⟨Memory.empty, fun _ => packaged_task.of (fun _ => .ok 42)⟩ :
        World Unit String Nat Nat).armed 0 (fun _ => .ok 42) ∧
    (future.get (result_helper.primary Nat) ⟨some 0⟩
      (World.run (result_helper.primary Nat)
        (World.get_futures (World.call (result_helper.primary Nat)
          (World.get_futures (⟨Memory.empty, fun _ => packaged_task.of (fun _ => .ok 42)⟩ :
            World Unit String Nat Nat) 0 1).2 0 ()).2 0 1).2
        [.get ⟨some 0⟩, .reset 0, .call 0 ()]).mem : Completion String Nat) = .returned 42 :=
  ⟨⟨rfl, fun c hc => by cases hc⟩,
    ((C1_value_delivered (⟨Memory.empty, fun _ => packaged_task.of (fun _ => .ok 42)⟩ :
        World Unit String Nat Nat) 0 (fun _ => .ok 42) () 42 1 1
        [.get ⟨some 0⟩, .reset 0, .call 0 ()] ⟨rfl, fun c hc => by cases hc⟩ rfl).2
      ⟨some 0⟩ (by decide)).2⟩


/-- What the code does when the wrapped callable throws: the exception leaves the
invocation, and every cell that existed keeps its content; nothing is published. -/
theorem packaged_task.call_raised (H : result_helper R P) (t : packaged_task A E R) (a : A)
    (m : Memory P) (f : A → Except E R) (e : E) (hf : t.mFunc = some f)
    (he : f a = .error e) (hc : ∀ c, t.mResult = some c → (m.cells c).mResult = none) :
    (t.call H a m).1 = .raised e ∧
      ∀ c, c < m.next → (t.call H a m).2.2.cells c = m.cells c := by
  unfold packaged_task.call
  cases hr : t.mResult with
  | none =>
    have hcell : (m.alloc.2.cells m.alloc.1).mResult = none := by simp [Memory.alloc]; rfl
    refine ⟨by simp [hf, hcell, result_helper.store, he], ?_⟩
    intro c hlt
    simp only [hf, hcell, result_helper.store, he, Memory.tick]
    simp [Memory.alloc, Function.update_noteq (Nat.ne_of_lt hlt)]
  | some d =>
    have hd := hc d hr
    refine ⟨by simp [hf, hd, result_helper.store, he], ?_⟩
    intro c _
    simp [hf, hd, result_helper.store, he, Memory.tick]

/-! ### C3: failures of the callable -/

/-- `new async_result<R>()` does not set a failure flag. -/
theorem Memory.alloc_flags (m : Memory P) (hm : ∀ c, (m.cells c).mException = false) :
    ∀ c, (m.alloc.2.cells c).mException = false := by
  intro c
  simp only [Memory.alloc]
  by_cases hc : c = m.next
  · rw [hc, Function.update_same]; rfl
  · rw [Function.update_noteq hc]; exact hm c

/-- `get_future` does not set a failure flag. -/
theorem packaged_task.get_future_flags (t : packaged_task A E R) (m : Memory P)
    (hm : ∀ c, (m.cells c).mException = false) :
    ∀ c, ((t.get_future m).2.2.cells c).mException = false := by
  unfold packaged_task.get_future
  cases t.mResult with
  | none => exact Memory.alloc_flags m hm
  | some d => exact hm

/-- Storing a result does not set a failure flag. -/
theorem Memory.setResult_flags (m : Memory P) (d : Nat) (p : Option P)
    (hm : ∀ c, (m.cells c).mException = false) :
    ∀ c, (((m.setResult d p).tick).cells c).mException = false := by
  intro c
  simp only [Memory.tick, Memory.setResult]
  by_cases hc : c = d
  · rw [hc, Function.update_same]; exact hm d
  · rw [Function.update_noteq hc]; exact hm c

/-- An invocation does not set a failure flag, whether the callable returns or throws. -/
theorem packaged_task.call_flags (H : result_helper R P) (t : packaged_task A E R) (a : A)
    (m : Memory P) (hm : ∀ c, (m.cells c).mException = false) :
    ∀ c, ((t.call H a m).2.2.cells c).mException = false := by
  unfold packaged_task.call
  cases hf : t.mFunc with
  | none => exact hm
  | some func =>
    cases hr : t.mResult with
    | none =>
      simp only
      split
      · exact Memory.alloc_flags m hm
      · split
        · exact Memory.setResult_flags _ _ _ (Memory.alloc_flags m hm)
        · exact Memory.alloc_flags m hm
    | some d =>
      simp only
      split
      · exact hm
      · split
        · exact Memory.setResult_flags _ _ _ hm
        · exact hm

/-- No sequence of operations sets a failure flag: `mException` is written by the
constructor of the cell only, and to false. -/
theorem World.run_flags (H : result_helper R P) (ops : List (Op A)) :
    ∀ w : World A E R P, (∀ c, (w.mem.cells c).mException = false) →
      ∀ c, ((w.run H ops).mem.cells c).mException = false := by
  induction ops with
  | nil => intro w hw; exact hw
  | cons op ops ih =>
    intro w hw
    refine ih (w.step H op) ?_
    cases op with
    | call i a => exact packaged_task.call_flags H (w.tasks i) a w.mem hw
    | get_future i => exact packaged_task.get_future_flags (w.tasks i) w.mem hw
    | reset i => exact hw
    | swap i j => exact hw
    | get h => exact hw
    | wait h => exact hw
    | is_ready h => exact hw
    | has_value h => exact hw
    | valid h => exact hw
    | ready d => exact hw

/-- C3 on the code, at Scenario E: a handle is obtained from a task whose callable throws
`boom`, and the task is invoked.  The claim asks that the failure be captured into the
cell, the cell be ready, and `get()` re-raise the failure.  The code lets the exception
leave the invocation (`operator()` has no handler), records nothing (the cell has no
result and `mException`, which `ready()`, `wait()` and `get()` consult, is still false),
the handle is not ready, and `get()` raises nothing: the caller stays parked. -/
theorem C3_failure_not_captured :
    scenarioE_handle = ⟨some 0⟩ ∧
    scenarioE.1 = .raised boom ∧
    scenarioE.2.2.cells 0 = ⟨none, false⟩ ∧
    scenarioE_handle.is_ready scenarioE.2.2 = false ∧
    (scenarioE_handle.wait scenarioE.2.2 : Completion String Unit) = .blocked ∧
    (scenarioE_handle.get (result_helper.primary Nat) scenarioE.2.2 :
      Completion String Nat) = .blocked ∧
    (scenarioE_handle.get (result_helper.primary Nat) scenarioE.2.2 :
      Completion String Nat) ≠ .raised boom := by
  refine ⟨rfl, rfl, rfl, rfl, rfl, rfl, by decide⟩

/-! ### C4: a task without a callable -/

/-- Against C4. Scenario C: a handle is obtained from a default-constructed
task and the task is invoked.  The invocation returns normally, no failure is signalled
or recorded, the handle is not ready, and `wait()` and `get()` stay parked. -/
theorem C4_counterexample :
    scenarioC_handle = ⟨some 0⟩ ∧
    scenarioC.1 = .returned () ∧
    scenarioC.2.2.cells 0 = ⟨none, false⟩ ∧
    scenarioC_handle.is_ready scenarioC.2.2 = false ∧
    (scenarioC_handle.wait scenarioC.2.2 : Completion String Unit) = .blocked ∧
    (scenarioC_handle.get (result_helper.primary Nat) scenarioC.2.2 :
      Completion String Nat) = .blocked := by
  refine ⟨rfl, rfl, rfl, rfl, rfl, rfl⟩

/-- C4, amended. Invoking a task that holds no callable returns normally at once and
changes neither the task nor the heap: no cell is created and nothing is published.  So
a handle bound to a cell that was not ready is not ready afterwards either, and `wait()`
and `get()` on it stay parked. -/
theorem C4_no_callable_no_effect (H : result_helper R P) (t : packaged_task A E R) (a : A)
    (m : Memory P) (ht : t.toBool = false) :
    t.call H a m = (.returned (), t, m) ∧
    ∀ (h : future) (c : Nat), h.mResult = some c → h.is_ready m = false →
      h.is_ready (t.call H a m).2.2 = false ∧
      (h.wait (t.call H a m).2.2 : Completion E Unit) = .blocked ∧
      (h.get H (t.call H a m).2.2 : Completion E R) = .blocked := by
  have hnone : t.mFunc = none := by
    cases hf : t.mFunc with
    | none => rfl
    | some f => simp [packaged_task.toBool, hf] at ht
  have hcall : t.call H a m = (.returned (), t, m) := by
    unfold packaged_task.call
    simp [hnone]
  refine ⟨hcall, ?_⟩
  intro h c hh hr
  rw [hcall]
  simp only [future.is_ready, hh, async_result.ready, Bool.or_eq_false_iff] at hr
  have hr1 : (m.cells c).mResult = none := by
    cases hx : (m.cells c).mResult with
    | none => rfl
    | some p => simp [hx] at hr
  refine ⟨by simp [future.is_ready, hh, async_result.ready, hr1, hr.2], ?_, ?_⟩
  · simp [future.wait, hh, hr1, hr.2]
  · simp [future.get, future.wait, hh, hr1, hr.2]

theorem C4_no_callable_no_effect_witness :
    (packaged_task.empty : packaged_task Unit String Nat).toBool = false ∧
    ((packaged_task.empty : packaged_task Unit String Nat).call (result_helper.primary Nat) ()
      (Memory.empty : Memory Nat)).1 = .returned () :=
  ⟨rfl, congrArg Prod.fst
    (C4_no_callable_no_effect (result_helper.primary Nat)
      (packaged_task.empty : packaged_task Unit String Nat) () Memory.empty rfl).1⟩

/-! ### C5: handles without a cell -/

/-- Against C5. Scenario D with `wait()`: on a handle without a cell `wait()`
returns normally, while `get()` throws. -/
theorem C5_counterexample :
    scenarioD_handle.valid = false ∧
    (scenarioD_handle.wait (Memory.empty : Memory Nat) : Completion String Unit)
      = .returned () ∧
    (scenarioD_handle.get (result_helper.primary Nat) (Memory.empty : Memory Nat) :
      Completion String Nat) = .runtime_error invalid_future := by
  refine ⟨rfl, rfl, rfl⟩

/-- C5, amended. On a handle with no bound cell, `get()` throws
`std::runtime_error("invalid future")` at once and `wait()` returns normally at once;
neither parks, and the program state after either is the state before. -/
theorem C5_invalid_handle (H : result_helper R P) (h : future) (w : World A E R P)
    (hv : h.valid = false) :
    (h.get H w.mem : Completion E R) = .runtime_error invalid_future ∧
    (h.wait w.mem : Completion E Unit) = .returned () ∧
    w.step H (.get h) = w ∧ w.step H (.wait h) = w := by
  have hnone : h.mResult = none := by
    cases hf : h.mResult with
    | none => rfl
    | some c => simp [future.valid, hf] at hv
  refine ⟨by simp [future.get, hnone], by simp [future.wait, hnone], rfl, rfl⟩

theorem C5_invalid_handle_witness :
    scenarioD_handle.valid = false ∧
    (scenarioD_handle.get (result_helper.primary Nat) published_world.mem : Completion String Nat)
      = .runtime_error invalid_future :=
  ⟨rfl, (C5_invalid_handle (result_helper.primary Nat) scenarioD_handle published_world rfl).1⟩

/-! ### C6: `get_future` -/

/-- An operation that does not detach task `i` leaves it attached to its cell. -/
theorem World.step_attached (H : result_helper R P) (w : World A E R P) (op : Op A)
    (i c : Nat) (hr : (w.tasks i).mResult = some c) (hop : op.detaches i = false) :
    ((w.step H op).tasks i).mResult = some c := by
  cases op with
  | call j a =>
    show ((Function.update w.tasks j ((w.tasks j).call H a w.mem).2.1) i).mResult = some c
    by_cases hji : j = i
    · subst hji
      rw [Function.update_same]
      unfold packaged_task.call
      cases hf : (w.tasks j).mFunc with
      | none => exact hr
      | some func =>
        simp only [hr]
        split
        · exact hr
        · split <;> exact hr
    · rw [Function.update_noteq (Ne.symm hji)]
      exact hr
  | get_future j =>
    show ((Function.update w.tasks j ((w.tasks j).get_future w.mem).2.1) i).mResult = some c
    by_cases hji : j = i
    · subst hji
      rw [Function.update_same]
      unfold packaged_task.get_future
      simp only [hr]
    · rw [Function.update_noteq (Ne.symm hji)]
      exact hr
  | reset k =>
    have hki : k ≠ i := by simpa [Op.detaches] using hop
    show ((Function.update w.tasks k (w.tasks k).reset) i).mResult = some c
    rw [Function.update_noteq (Ne.symm hki)]
    exact hr
  | swap k j =>
    have hne : k ≠ i ∧ j ≠ i := by simpa [Op.detaches] using hop
    show ((Function.update (Function.update w.tasks j _) k _) i).mResult = some c
    rw [Function.update_noteq (Ne.symm hne.1), Function.update_noteq (Ne.symm hne.2)]
    exact hr
  | get h => exact hr
  | wait h => exact hr
  | is_ready h => exact hr
  | has_value h => exact hr
  | valid h => exact hr
  | ready d => exact hr

/-- A sequence of operations none of which detaches task `i` leaves it attached. -/
theorem World.run_attached (H : result_helper R P) (i c : Nat) (ops : List (Op A)) :
    ∀ w : World A E R P, (w.tasks i).mResult = some c →
      (∀ op ∈ ops, op.detaches i = false) → ((w.run H ops).tasks i).mResult = some c := by
  induction ops with
  | nil => intro w hr _; exact hr
  | cons op ops ih =>
    intro w hr hops
    exact ih (w.step H op)
      (World.step_attached H w op i c hr (hops op (List.mem_cons_self _ _)))
      (fun o ho => hops o (List.mem_cons_of_mem _ ho))

/-- After `get_future` the task is attached to the cell the handle is bound to. -/
theorem World.get_future_binds (w : World A E R P) (i : Nat) :
    ∃ c, (w.get_future i).1 = ⟨some c⟩ ∧ ((w.get_future i).2.tasks i).mResult = some c := by
  unfold World.get_future packaged_task.get_future
  cases hr : (w.tasks i).mResult with
  | none => exact ⟨w.mem.next, rfl, by simp [Memory.alloc]⟩
  | some c => exact ⟨c, rfl, by simp [hr]⟩

/-- C6. `get_future()` is idempotent with respect to the attached cell.  Call it on task
`i`, perform any operations that do not detach the task (no `reset()` on it and no swap it
takes part in: it stays the same task), call it again.  Then: the first handle is valid;
the second handle is bound to the same cell as the first; the second call created nothing
(the state is unchanged by it); a call on a task that has a cell already creates nothing
either, while a call on a task without a cell creates exactly one, not ready; and in
every state reached afterwards by any operations the two handles report the same
`is_ready()`. -/
theorem C6_get_future_idempotent (H : result_helper R P) (w : World A E R P) (i : Nat)
    (ops rest : List (Op A)) (hops : ∀ op ∈ ops, op.detaches i = false) :
    let first := w.get_future i
    let mid := first.2.run H ops
    let second := mid.get_future i
    first.1.valid = true ∧ second.1 = first.1 ∧ second.2 = mid ∧
    ((w.tasks i).mResult ≠ none → first.2 = w) ∧
    ((w.tasks i).mResult = none →
      first.2.mem.next = w.mem.next + 1 ∧ first.1.is_ready first.2.mem = false) ∧
    first.1.is_ready (second.2.run H rest).mem = second.1.is_ready (second.2.run H rest).mem
    := by
  intro first mid second
  obtain ⟨c, h1, h2⟩ := World.get_future_binds w i
  have h3 : (mid.tasks i).mResult = some c := World.run_attached H i c ops first.2 h2 hops
  have h4 : second = (⟨some c⟩, mid) := World.get_future_attached mid i c h3
  have h5 : first.1 = ⟨some c⟩ := h1
  have h6 : second.1 = first.1 := by rw [h4, h5]
  refine ⟨by rw [h5]; rfl, h6, by rw [h4], ?_, ?_, by rw [h6]⟩
  · intro hne
    cases hr : (w.tasks i).mResult with
    | none => exact absurd hr hne
    | some d =>
      show (w.get_future i).2 = w
      rw [World.get_future_attached w i d hr]
  · intro hnone
    show (w.get_future i).2.mem.next = w.mem.next + 1 ∧
      (w.get_future i).1.is_ready (w.get_future i).2.mem = false
    unfold World.get_future packaged_task.get_future
    simp [hnone, Memory.alloc, future.is_ready, async_result.ready, async_result.init]

/-- Two handles from task 0 of `fresh_world`, with an invocation in between: both are
bound to cell 0. -/
theorem C6_get_future_idempotent_witness :
    (Op.detaches 0 (Op.call 0 7 : Op Nat) = false ∧
      Op.detaches 0 (Op.get_future 1 : Op Nat) = false) ∧
    (World.get_future (World.run (result_helper.primary Nat) (fresh_world.get_future 0).2
      [.call 0 7, .get_future 1]) 0).1 = (fresh_world.get_future 0).1 :=
  ⟨⟨rfl, rfl⟩,
    (C6_get_future_idempotent (result_helper.primary Nat) fresh_world 0
      [.call 0 7, .get_future 1] [] (by decide)).2.1⟩

/-! ### C7: `reset` -/

/-- C7. `reset()` detaches only the cell.  Reset a task, call `get_future()`, invoke.
The reset keeps the callable, so the boolean test is unchanged, and it leaves the task
without a cell; it does not take the heap or any handle, so handles obtained before are
bound as before.  The new handle is bound to the fresh cell at address `m.next`, which
is not ready.  Every cell that existed before (every address below `m.next`, where the
earlier handles point) has the same content after `get_future()` and after the
invocation.  If the task holds a callable, the invocation runs it once more, and if it
returns `v`, the invocation returns and the fresh cell holds exactly `v`. -/
theorem C7_reset_detaches_cell (H : result_helper R P) (t : packaged_task A E R) (a : A)
    (m : Memory P) :
    let t1 := t.reset
    let gf := t1.get_future m
    let inv := gf.2.1.call H a gf.2.2
    t1.toBool = t.toBool ∧ t1.mFunc = t.mFunc ∧ t1.mResult = none ∧
    gf.1.mResult = some m.next ∧ gf.1.is_ready gf.2.2 = false ∧
    (∀ c, c < m.next → gf.2.2.cells c = m.cells c ∧ inv.2.2.cells c = m.cells c) ∧
    (∀ f, t.mFunc = some f → inv.2.2.calls = m.calls + 1 ∧
      ∀ v, f a = .ok v →
        inv.1 = .returned () ∧ inv.2.2.cells m.next = ⟨some (H.make v), false⟩) := by
  intro t1 gf inv
  have hgf : gf = (⟨some m.next⟩, { t with mResult := some m.next }, m.alloc.2) := rfl
  have hcell : m.alloc.2.cells m.next = async_result.init := by
    simp [Memory.alloc]
  refine ⟨rfl, rfl, rfl, rfl, ?_, ?_, ?_⟩
  · rw [hgf]
    simp [future.is_ready, hcell, async_result.ready, async_result.init]
  · intro c hc
    have hne : c ≠ m.next := Nat.ne_of_lt hc
    have h1 : gf.2.2.cells c = m.cells c := by
      rw [hgf]; simp [Memory.alloc, Function.update_noteq hne]
    refine ⟨h1, ?_⟩
    show (packaged_task.call H gf.2.1 a gf.2.2).2.2.cells c = m.cells c
    rw [hgf]
    unfold packaged_task.call
    cases hf : t.mFunc with
    | none => simpa [hf, hgf] using h1
    | some func =>
      simp only [hf, hcell, async_result.init]
      cases hs : H.store func a with
      | ok p => simp [Memory.tick, Memory.setResult, Memory.alloc, Function.update_noteq hne]
      | error e => simp [Memory.tick, Memory.alloc, Function.update_noteq hne]
  · intro f hf
    have hcalls : inv.2.2.calls = m.calls + 1 := by
      show (packaged_task.call H gf.2.1 a gf.2.2).2.2.calls = m.calls + 1
      rw [hgf]
      unfold packaged_task.call
      simp only [hf, hcell, async_result.init]
      cases hs : H.store f a with
      | ok p => simp [Memory.tick, Memory.setResult, Memory.alloc]
      | error e => simp [Memory.tick, Memory.alloc]
    refine ⟨hcalls, ?_⟩
    intro v hv
    show (packaged_task.call H gf.2.1 a gf.2.2).1 = .returned () ∧
      (packaged_task.call H gf.2.1 a gf.2.2).2.2.cells m.next = ⟨some (H.make v), false⟩
    rw [hgf]
    unfold packaged_task.call
    simp [hf, hcell, async_result.init, result_helper.store, hv, Memory.tick,
      Memory.setResult, Memory.alloc]

/-- A task attached to the published cell 0 is reset and invoked with 9: cell 0 still
holds 5 and the fresh cell 1 holds 9. -/
theorem C7_reset_detaches_cell_witness :
    invoked_task.mFunc = some (fun n => .ok n) ∧
    ((invoked_task.reset.get_future invoked_memory).2.1.call (result_helper.primary Nat) 9
      (invoked_task.reset.get_future invoked_memory).2.2).2.2.cells 0 = ⟨some 5, false⟩ ∧
    ((invoked_task.reset.get_future invoked_memory).2.1.call (result_helper.primary Nat) 9
      (invoked_task.reset.get_future invoked_memory).2.2).2.2.cells 1 = ⟨some 9, false⟩ :=
  ⟨rfl,
    ((C7_reset_detaches_cell (result_helper.primary Nat) invoked_task 9
      invoked_memory).2.2.2.2.2.1 0 (by decide)).2,
    (((C7_reset_detaches_cell (result_helper.primary Nat) invoked_task 9
      invoked_memory).2.2.2.2.2.2 (fun n => .ok n) rfl).2 9 rfl).2⟩

/-! ### C8: `async` -/

/-- `async(f)`: the handle is valid and not ready while the worker has not run; once the
worker has made its invocation of a callable returning `v`, `get()` returns `v`. -/
theorem async_delivers (f : Unit → Except E R) (v : R) (m : Memory R) (hv : f () = .ok v) :
    (async f m).1.valid = true ∧ (async f m).1.is_ready (async f m).2.2 = false ∧
    ((async f m).2.1.run (result_helper.primary R) (async f m).2.2).1 = .returned () ∧
    ((async f m).1.get (result_helper.primary R)
      ((async f m).2.1.run (result_helper.primary R) (async f m).2.2).2 : Completion E R)
      = .returned v := by
  have hcell : m.alloc.2.cells m.next = async_result.init := by simp [Memory.alloc]
  have ha : async f m = (⟨some m.next⟩, ⟨⟨some f, some m.next⟩⟩, m.alloc.2) := rfl
  rw [ha]
  refine ⟨rfl, ?_, ?_, ?_⟩
  · simp [future.is_ready, hcell, async_result.ready, async_result.init]
  · simp [Worker.run, packaged_task.call, hcell, async_result.init, result_helper.store, hv]
  · simp [Worker.run, packaged_task.call, hcell, async_result.init, result_helper.store, hv,
      future.get, future.wait, Memory.tick, Memory.setResult, result_helper.primary]

/-- The launchers with one, two and three extra values deliver `f` applied to all of
them, in order. -/
theorem async123_deliver {T : Type} (f : List T → Except E R) (t u v : T) (m : Memory R) :
    (∀ r, f [t] = .ok r →
      ((async1 f t m).1.get (result_helper.primary R)
        ((async1 f t m).2.1.run (result_helper.primary R) (async1 f t m).2.2).2 :
        Completion E R) = .returned r) ∧
    (∀ r, f [t, u] = .ok r →
      ((async2 f t u m).1.get (result_helper.primary R)
        ((async2 f t u m).2.1.run (result_helper.primary R) (async2 f t u m).2.2).2 :
        Completion E R) = .returned r) ∧
    (∀ r, f [t, u, v] = .ok r →
      ((async3 f t u v m).1.get (result_helper.primary R)
        ((async3 f t u v m).2.1.run (result_helper.primary R) (async3 f t u v m).2.2).2 :
        Completion E R) = .returned r) :=
  ⟨fun r hr => (async_delivers (bind f [t]) r m hr).2.2.2,
   fun r hr => (async_delivers (bind f [t, u]) r m hr).2.2.2,
   fun r hr => (async_delivers (bind f [t, u, v]) r m hr).2.2.2⟩

/-- The launcher with four extra values delivers `f` applied to the first three: the
fourth never reaches `std::bind`. -/
theorem async4_delivers {T : Type} (f : List T → Except E R) (t u v x : T) (m : Memory R)
    (r : R) (hr : f [t, u, v] = .ok r) :
    ((async4 f t u v x m).1.get (result_helper.primary R)
      ((async4 f t u v x m).2.1.run (result_helper.primary R) (async4 f t u v x m).2.2).2 :
      Completion E R) = .returned r :=
  (async_delivers (bind f [t, u, v]) r m hr).2.2.2

/-- C8 on the code. Scenario B holds: `add_all` launched with 3 and 4 delivers 7, and the
launchers with one and three values deliver the sum of all of them.  The launcher with
four values, called with 1, 2, 3, 4, delivers 6, which is `add_all` of 1, 2, 3, where the
claim asks for `add_all` of 1, 2, 3, 4, which is 10. -/
theorem C8_fourth_value_dropped :
    delivered (async1 add_all 5 Memory.empty) = .returned 5 ∧
    delivered (async2 add_all 3 4 Memory.empty) = .returned 7 ∧
    delivered (async3 add_all 1 2 3 Memory.empty) = .returned 6 ∧
    delivered (async4 add_all 1 2 3 4 Memory.empty) = .returned 6 ∧
    add_all [1, 2, 3, 4] = .ok 10 ∧
    delivered (async4 add_all 1 2 3 4 Memory.empty) ≠ .returned 10 := by
  refine ⟨rfl, rfl, rfl, rfl, rfl, by decide⟩

/-! ## Threads: the invariant -/

namespace Conc

theorem ok_initial (w : World A E R P) : (initial w).ok :=
  ⟨fun _ _ h => by simp [initial, Frame.holds] at h, fun _ _ _ _ h => by simp [initial] at h⟩

/-- The general step of the invariant: thread `tid` moves to `fr`, heap, tasks and
mutexes become `mem1`, `tasks1`, `locks1`. -/
theorem ok_mk (s : State A E R P) (hs : s.ok) (tid : Nat) (fr : Frame A E R)
    (mem1 : Memory P) (tasks1 : Nat → packaged_task A E R) (locks1 : Nat → Option Nat)
    (h1 : ∀ c, fr.holds c = true → locks1 c = some tid)
    (h2 : ∀ u c, u ≠ tid → (s.threads u).holds c = true → locks1 c = s.locks c)
    (h3 : ∀ f a c, fr = .call_running f a c → (mem1.cells c).mResult = none)
    (h4 : ∀ u f a c, u ≠ tid → s.threads u = .call_running f a c →
      (mem1.cells c).mResult = none) :
    State.ok ⟨mem1, tasks1, locks1, Function.update s.threads tid fr⟩ := by
  obtain ⟨hl, hr⟩ := hs
  constructor
  · intro u c hu
    by_cases hut : u = tid
    · subst hut
      simp only [Function.update_same] at hu
      exact h1 c hu
    · simp only [Function.update_noteq hut] at hu
      show locks1 c = some u
      rw [h2 u c hut hu]
      exact hl u c hu
  · intro u f a c hu
    by_cases hut : u = tid
    · subst hut
      simp only [Function.update_same] at hu
      exact h3 f a c hu
    · simp only [Function.update_noteq hut] at hu
      exact h4 u f a c hut hu

/-- A thread that holds nothing moves on without touching heap or mutexes. -/
theorem ok_goto (s : State A E R P) (hs : s.ok) (tid : Nat) (fr : Frame A E R)
    (h1 : ∀ c, fr.holds c = true → (s.threads tid).holds c = true)
    (h3 : ∀ f a c, fr = .call_running f a c → (s.mem.cells c).mResult = none) :
    (s.goto tid fr).ok :=
  ok_mk s hs tid fr s.mem s.tasks s.locks (fun c hc => hs.1 tid c (h1 c hc))
    (fun _ _ _ _ => rfl) h3 (fun u f a c _ hu => hs.2 u f a c hu)

theorem acquire_some (s s1 : State A E R P) (tid c : Nat) (fr : Frame A E R)
    (h : s.acquire tid c fr = some s1) :
    s.locks c = none ∧
      s1 = ⟨s.mem, s.tasks, Function.update s.locks c (some tid),
        Function.update s.threads tid fr⟩ := by
  unfold State.acquire at h
  cases hl : s.locks c with
  | none =>
    rw [hl] at h
    simp only [Option.some.injEq] at h
    exact ⟨rfl, h.symm⟩
  | some u => rw [hl] at h; cases h

/-- Taking a free mutex keeps the invariant. -/
theorem ok_acquire (s s1 : State A E R P) (hs : s.ok) (tid c : Nat) (fr : Frame A E R)
    (h : s.acquire tid c fr = some s1)
    (h1 : ∀ d, fr.holds d = true → d = c)
    (h3 : ∀ f a d, fr ≠ .call_running f a d) : s1.ok := by
  obtain ⟨hfree, rfl⟩ := acquire_some s s1 tid c fr h
  refine ok_mk s hs tid fr s.mem s.tasks _ ?_ ?_ ?_ ?_
  · intro d hd
    rw [h1 d hd, Function.update_same]
  · intro u d _ hu
    have hne : d ≠ c := by
      intro hdc
      subst hdc
      have := hs.1 u d hu
      rw [hfree] at this
      cases this
    rw [Function.update_noteq hne]
  · intro f a d hfr
    exact absurd hfr (h3 f a d)
  · intro u f a d _ hu
    exact hs.2 u f a d hu

/-- Giving up a held mutex keeps the invariant, whatever the thread wrote to the cell it
held the mutex of, as long as no callable is running for a cell that now has a result. -/
theorem ok_release (s : State A E R P) (hs : s.ok) (tid c : Nat) (fr : Frame A E R)
    (mem1 : Memory P) (hheld : (s.threads tid).holds c = true)
    (h1 : ∀ d, fr.holds d = false)
    (hmem : ∀ d, d ≠ c → mem1.cells d = s.mem.cells d) :
    ({ s with mem := mem1 }.release tid c fr).ok := by
  have hmine := hs.1 tid c hheld
  have hother : ∀ u d, u ≠ tid → (s.threads u).holds d = true → d ≠ c := by
    intro u d hut hu hdc
    subst hdc
    have := hs.1 u d hu
    rw [hmine] at this
    exact hut (Option.some.inj this).symm
  refine ok_mk s hs tid fr mem1 s.tasks _ ?_ ?_ ?_ ?_
  · intro d hd
    rw [h1 d] at hd
    cases hd
  · intro u d hut hu
    show Function.update s.locks c none d = s.locks d
    rw [Function.update_noteq (hother u d hut hu)]
  · intro f a d hfr
    have := h1 d
    rw [hfr] at this
    simp [Frame.holds] at this
  · intro u f a d hut hu
    have hd : d ≠ c := hother u d hut (by rw [hu]; simp [Frame.holds])
    rw [hmem d hd]
    exact hs.2 u f a d hu


theorem alloc_keeps_none (m : Memory P) (c : Nat) (h : (m.cells c).mResult = none) :
    (m.alloc.2.cells c).mResult = none := by
  simp only [Memory.alloc]
  by_cases hc : c = m.next
  · rw [hc, Function.update_same]; rfl
  · rw [Function.update_noteq hc]; exact h

theorem get_future_keeps_none (t : packaged_task A E R) (m : Memory P) (c : Nat)
    (h : (m.cells c).mResult = none) : ((t.get_future m).2.2.cells c).mResult = none := by
  unfold packaged_task.get_future
  cases t.mResult with
  | none => exact alloc_keeps_none m c h
  | some d => exact h

/-- Entering an operation keeps the invariant. -/
theorem ok_start (H : result_helper R P) (s : State A E R P) (hs : s.ok) (tid : Nat)
    (req : Request A) : (next H s (.start tid req)).ok := by
  show (if (s.threads tid).finished then s.goto tid req.entry else s).ok
  split
  · refine ok_goto s hs tid _ ?_ ?_
    · intro c hc
      cases req <;> simp [Request.entry, Frame.holds] at hc
    · intro f a c hfr
      cases req <;> simp [Request.entry] at hfr
  · exact hs

/-- A step of a thread keeps the invariant. -/
theorem ok_advance (H : result_helper R P) (s s1 : State A E R P) (hs : s.ok) (tid : Nat)
    (h : advance H s tid = some s1) : s1.ok := by
  unfold advance at h
  cases hfr : s.threads tid with
  | idle => rw [hfr] at h; cases h
  | done_unit r => rw [hfr] at h; cases h
  | done_value r => rw [hfr] at h; cases h
  | done_bool r => rw [hfr] at h; cases h
  | done_future r => rw [hfr] at h; cases h
  | call_entry i a =>
    rw [hfr] at h
    simp only at h
    cases hf : (s.tasks i).mFunc with
    | none =>
      rw [hf] at h
      simp only [Option.some.injEq] at h
      subst h
      exact ok_goto s hs tid _ (by simp [Frame.holds]) (by simp)
    | some func =>
      rw [hf] at h
      simp only at h
      cases hm : (s.tasks i).mResult with
      | none =>
        rw [hm] at h
        simp only [Option.some.injEq] at h
        subst h
        exact ok_mk s hs tid _ _ _ _ (by simp [Frame.holds]) (fun _ _ _ _ => rfl) (by simp)
          (fun u f a c _ hu => alloc_keeps_none s.mem c (hs.2 u f a c hu))
      | some c =>
        rw [hm] at h
        simp only [Option.some.injEq] at h
        subst h
        exact ok_goto s hs tid _ (by simp [Frame.holds]) (by simp)
  | call_lock func a c =>
    rw [hfr] at h
    exact ok_acquire s s1 hs tid c _ h (by simp [Frame.holds]) (by simp)
  | call_locked func a c =>
    rw [hfr] at h
    simp only at h
    have hheld : (s.threads tid).holds c = true := by rw [hfr]; simp [Frame.holds]
    cases hm : (s.mem.cells c).mResult with
    | some p =>
      rw [hm] at h
      simp only [Option.some.injEq] at h
      subst h
      exact ok_release s hs tid c _ s.mem hheld (by simp [Frame.holds]) (fun _ _ => rfl)
    | none =>
      rw [hm] at h
      simp only [Option.some.injEq] at h
      subst h
      refine ok_goto s hs tid _ ?_ ?_
      · intro d hd
        rw [hfr]
        simpa [Frame.holds] using hd
      · intro f b d hd
        simp only [Frame.call_running.injEq] at hd
        rw [← hd.2.2]
        exact hm
  | call_running func a c =>
    rw [hfr] at h
    simp only at h
    have hheld : (s.threads tid).holds c = true := by rw [hfr]; simp [Frame.holds]
    cases hst : H.store func a with
    | ok p =>
      rw [hst] at h
      simp only [Option.some.injEq] at h
      subst h
      refine ok_release s hs tid c _ _ hheld (by simp [Frame.holds]) ?_
      intro d hd
      simp [Memory.tick, Memory.setResult, Function.update_noteq hd]
    | error e =>
      rw [hst] at h
      simp only [Option.some.injEq] at h
      subst h
      exact ok_release s hs tid c _ _ hheld (by simp [Frame.holds]) (fun _ _ => rfl)
  | wait_entry hd =>
    rw [hfr] at h
    simp only at h
    cases hm : hd.mResult with
    | none =>
      rw [hm] at h
      simp only [Option.some.injEq] at h
      subst h
      exact ok_goto s hs tid _ (by simp [Frame.holds]) (by simp)
    | some c =>
      rw [hm] at h
      simp only [Option.some.injEq] at h
      subst h
      exact ok_goto s hs tid _ (by simp [Frame.holds]) (by simp)
  | get_entry hd =>
    rw [hfr] at h
    simp only at h
    cases hm : hd.mResult with
    | none =>
      rw [hm] at h
      simp only [Option.some.injEq] at h
      subst h
      exact ok_goto s hs tid _ (by simp [Frame.holds]) (by simp)
    | some c =>
      rw [hm] at h
      simp only [Option.some.injEq] at h
      subst h
      exact ok_goto s hs tid _ (by simp [Frame.holds]) (by simp)
  | wait_lock k c =>
    rw [hfr] at h
    exact ok_acquire s s1 hs tid c _ h (by simp [Frame.holds]) (by simp)
  | wait_parked k c =>
    rw [hfr] at h
    exact ok_acquire s s1 hs tid c _ h (by simp [Frame.holds]) (by simp)
  | wait_locked k c =>
    rw [hfr] at h
    simp only at h
    have hheld : (s.threads tid).holds c = true := by rw [hfr]; simp [Frame.holds]
    split at h
    · simp only [Option.some.injEq] at h
      subst h
      exact ok_release s hs tid c _ s.mem hheld (by simp [Frame.holds]) (fun _ _ => rfl)
    · cases k with
      | user =>
        simp only [Option.some.injEq] at h
        subst h
        exact ok_release s hs tid c _ s.mem hheld (by simp [Frame.holds]) (fun _ _ => rfl)
      | get =>
        simp only [Option.some.injEq] at h
        subst h
        exact ok_release s hs tid c _ s.mem hheld (by simp [Frame.holds]) (fun _ _ => rfl)
  | get_check c =>
    rw [hfr] at h
    simp only at h
    split at h
    · simp only [Option.some.injEq] at h
      subst h
      exact ok_goto s hs tid _ (by simp [Frame.holds]) (by simp)
    · simp only [Option.some.injEq] at h
      subst h
      exact ok_goto s hs tid _ (by simp [Frame.holds]) (by simp)
  | is_ready_entry hd =>
    rw [hfr] at h
    simp only at h
    cases hm : hd.mResult with
    | none =>
      rw [hm] at h
      simp only [Option.some.injEq] at h
      subst h
      exact ok_goto s hs tid _ (by simp [Frame.holds]) (by simp)
    | some c =>
      rw [hm] at h
      simp only [Option.some.injEq] at h
      subst h
      exact ok_goto s hs tid _ (by simp [Frame.holds]) (by simp)
  | ready_lock c =>
    rw [hfr] at h
    exact ok_acquire s s1 hs tid c _ h (by simp [Frame.holds]) (by simp)
  | ready_locked c =>
    rw [hfr] at h
    simp only [Option.some.injEq] at h
    subst h
    have hheld : (s.threads tid).holds c = true := by rw [hfr]; simp [Frame.holds]
    exact ok_release s hs tid c _ s.mem hheld (by simp [Frame.holds]) (fun _ _ => rfl)
  | get_future_entry i =>
    rw [hfr] at h
    simp only [Option.some.injEq] at h
    subst h
    exact ok_mk s hs tid _ _ _ _ (by simp [Frame.holds]) (fun _ _ _ _ => rfl) (by simp)
      (fun u f a c _ hu => get_future_keeps_none (s.tasks i) s.mem c (hs.2 u f a c hu))
  | reset_entry i =>
    rw [hfr] at h
    simp only [Option.some.injEq] at h
    subst h
    exact ok_mk s hs tid _ _ _ _ (by simp [Frame.holds]) (fun _ _ _ _ => rfl) (by simp)
      (fun u f a c _ hu => hs.2 u f a c hu)

/-- Every event keeps the invariant. -/
theorem ok_next (H : result_helper R P) (s : State A E R P) (hs : s.ok) (ev : Event A) :
    (next H s ev).ok := by
  cases ev with
  | start tid req => exact ok_start H s hs tid req
  | step tid =>
    show ((advance H s tid).getD s).ok
    cases h : advance H s tid with
    | none => exact hs
    | some s1 => exact ok_advance H s s1 hs tid h

/-- Every sequence of events keeps the invariant. -/
theorem ok_exec (H : result_helper R P) (evs : List (Event A)) :
    ∀ s : State A E R P, s.ok → (exec H s evs).ok := by
  induction evs with
  | nil => intro s hs; exact hs
  | cons ev evs ih => intro s hs; exact ih (next H s ev) (ok_next H s hs ev)


/-- A step of a thread: cells that exist still exist and evolve.  For the step that
stores a result this needs the invariant: the thread tested `!result->mResult` under the
mutex it still holds, so the cell has no result that the store could replace. -/
theorem evolves_advance (H : result_helper R P) (s s1 : State A E R P) (hs : s.ok)
    (tid : Nat) (h : advance H s tid = some s1) (c : Nat) (hc : c < s.mem.next) :
    c < s1.mem.next ∧ (s.mem.cells c).evolves (s1.mem.cells c) := by
  have same : ∀ s2 : State A E R P, s2.mem = s.mem →
      c < s2.mem.next ∧ (s.mem.cells c).evolves (s2.mem.cells c) := by
    intro s2 h2
    rw [h2]
    exact ⟨hc, async_result.evolves_refl _⟩
  have fresh : c < s.mem.alloc.2.next ∧ (s.mem.cells c).evolves (s.mem.alloc.2.cells c) := by
    simp only [Memory.alloc]
    rw [Function.update_noteq (Nat.ne_of_lt hc)]
    exact ⟨Nat.lt_succ_of_lt hc, async_result.evolves_refl _⟩
  unfold advance at h
  cases hfr : s.threads tid with
  | idle => rw [hfr] at h; cases h
  | done_unit r => rw [hfr] at h; cases h
  | done_value r => rw [hfr] at h; cases h
  | done_bool r => rw [hfr] at h; cases h
  | done_future r => rw [hfr] at h; cases h
  | call_entry i a =>
    rw [hfr] at h
    simp only at h
    cases hf : (s.tasks i).mFunc with
    | none =>
      rw [hf] at h
      simp only [Option.some.injEq] at h
      subst h
      exact same _ rfl
    | some func =>
      rw [hf] at h
      simp only at h
      cases hm : (s.tasks i).mResult with
      | none =>
        rw [hm] at h
        simp only [Option.some.injEq] at h
        subst h
        exact fresh
      | some d =>
        rw [hm] at h
        simp only [Option.some.injEq] at h
        subst h
        exact same _ rfl
  | call_lock func a d =>
    rw [hfr] at h
    obtain ⟨_, rfl⟩ := acquire_some _ _ _ _ _ h
    exact same _ rfl
  | call_locked func a d =>
    rw [hfr] at h
    simp only at h
    cases hm : (s.mem.cells d).mResult with
    | some p =>
      rw [hm] at h
      simp only [Option.some.injEq] at h
      subst h
      exact same _ rfl
    | none =>
      rw [hm] at h
      simp only [Option.some.injEq] at h
      subst h
      exact same _ rfl
  | call_running func a d =>
    rw [hfr] at h
    simp only at h
    have hnone : (s.mem.cells d).mResult = none := hs.2 tid func a d hfr
    cases hst : H.store func a with
    | ok p =>
      rw [hst] at h
      simp only [Option.some.injEq] at h
      subst h
      refine ⟨hc, ?_⟩
      show (s.mem.cells c).evolves
        (Function.update s.mem.cells d { s.mem.cells d with mResult := p } c)
      by_cases hcd : c = d
      · subst hcd
        rw [Function.update_same]
        exact ⟨rfl, fun q hq => by rw [hnone] at hq; cases hq⟩
      · rw [Function.update_noteq hcd]
        exact async_result.evolves_refl _
    | error e =>
      rw [hst] at h
      simp only [Option.some.injEq] at h
      subst h
      exact ⟨hc, async_result.evolves_refl _⟩
  | wait_entry hd =>
    rw [hfr] at h
    simp only at h
    cases hm : hd.mResult with
    | none =>
      rw [hm] at h
      simp only [Option.some.injEq] at h
      subst h
      exact same _ rfl
    | some d =>
      rw [hm] at h
      simp only [Option.some.injEq] at h
      subst h
      exact same _ rfl
  | get_entry hd =>
    rw [hfr] at h
    simp only at h
    cases hm : hd.mResult with
    | none =>
      rw [hm] at h
      simp only [Option.some.injEq] at h
      subst h
      exact same _ rfl
    | some d =>
      rw [hm] at h
      simp only [Option.some.injEq] at h
      subst h
      exact same _ rfl
  | wait_lock k d =>
    rw [hfr] at h
    obtain ⟨_, rfl⟩ := acquire_some _ _ _ _ _ h
    exact same _ rfl
  | wait_parked k d =>
    rw [hfr] at h
    obtain ⟨_, rfl⟩ := acquire_some _ _ _ _ _ h
    exact same _ rfl
  | wait_locked k d =>
    rw [hfr] at h
    simp only at h
    split at h
    · simp only [Option.some.injEq] at h
      subst h
      exact same _ rfl
    · cases k with
      | user =>
        simp only [Option.some.injEq] at h
        subst h
        exact same _ rfl
      | get =>
        simp only [Option.some.injEq] at h
        subst h
        exact same _ rfl
  | get_check d =>
    rw [hfr] at h
    simp only at h
    split at h
    · simp only [Option.some.injEq] at h
      subst h
      exact same _ rfl
    · simp only [Option.some.injEq] at h
      subst h
      exact same _ rfl
  | is_ready_entry hd =>
    rw [hfr] at h
    simp only at h
    cases hm : hd.mResult with
    | none =>
      rw [hm] at h
      simp only [Option.some.injEq] at h
      subst h
      exact same _ rfl
    | some d =>
      rw [hm] at h
      simp only [Option.some.injEq] at h
      subst h
      exact same _ rfl
  | ready_lock d =>
    rw [hfr] at h
    obtain ⟨_, rfl⟩ := acquire_some _ _ _ _ _ h
    exact same _ rfl
  | ready_locked d =>
    rw [hfr] at h
    simp only [Option.some.injEq] at h
    subst h
    exact same _ rfl
  | get_future_entry i =>
    rw [hfr] at h
    simp only [Option.some.injEq] at h
    subst h
    have hg := packaged_task.get_future_frame (s.tasks i) s.mem c hc
    refine ⟨hg.1, ?_⟩
    show (s.mem.cells c).evolves (((s.tasks i).get_future s.mem).2.2.cells c)
    rw [hg.2]
    exact async_result.evolves_refl _
  | reset_entry i =>
    rw [hfr] at h
    simp only [Option.some.injEq] at h
    subst h
    exact same _ rfl

/-- Any sequence of events from a state that satisfies the invariant: cells that exist
still exist and evolve. -/
theorem evolves_exec (H : result_helper R P) (evs : List (Event A)) :
    ∀ (s : State A E R P), s.ok → ∀ c, c < s.mem.next →
      c < (exec H s evs).mem.next ∧ (s.mem.cells c).evolves ((exec H s evs).mem.cells c) := by
  induction evs with
  | nil => intro s _ c hc; exact ⟨hc, async_result.evolves_refl _⟩
  | cons ev evs ih =>
    intro s hs c hc
    have hstep : c < (next H s ev).mem.next ∧
        (s.mem.cells c).evolves ((next H s ev).mem.cells c) := by
      cases ev with
      | start tid req =>
        show c < (if (s.threads tid).finished then s.goto tid req.entry else s).mem.next ∧
          (s.mem.cells c).evolves
            ((if (s.threads tid).finished then s.goto tid req.entry else s).mem.cells c)
        split <;> exact ⟨hc, async_result.evolves_refl _⟩
      | step tid =>
        show c < ((advance H s tid).getD s).mem.next ∧
          (s.mem.cells c).evolves (((advance H s tid).getD s).mem.cells c)
        cases h : advance H s tid with
        | none => exact ⟨hc, async_result.evolves_refl _⟩
        | some s1 => exact evolves_advance H s s1 hs tid h c hc
    have h2 := ih (next H s ev) (ok_next H s hs ev) c hstep.1
    exact ⟨h2.1, async_result.evolves_trans hstep.2 h2.2⟩

end Conc

/-! ## Threads: an operation that is not overtaken is the sequential operation -/

namespace Conc

/-- An invocation by a thread that takes all its steps in a row, with every mutex free,
does what `packaged_task.call` does, and leaves every mutex free. -/
theorem call_uninterrupted (H : result_helper R P) (s : State A E R P) (tid i : Nat) (a : A)
    (hfin : (s.threads tid).finished = true) (hfree : ∀ c, s.locks c = none) :
    (exec H s [.start tid (.call i a), .step tid, .step tid, .step tid, .step tid]).mem
      = ((s.tasks i).call H a s.mem).2.2 ∧
    (exec H s [.start tid (.call i a), .step tid, .step tid, .step tid, .step tid]).tasks
      = Function.update s.tasks i ((s.tasks i).call H a s.mem).2.1 ∧
    (exec H s [.start tid (.call i a), .step tid, .step tid, .step tid, .step tid]).locks
      = s.locks ∧
    (exec H s [.start tid (.call i a), .step tid, .step tid, .step tid, .step tid]).threads tid
      = .done_unit ((s.tasks i).call H a s.mem).1 := by
  have hl : s.locks = fun _ => none := funext hfree
  cases hf : (s.tasks i).mFunc with
  | none =>
    simp [exec, next, advance, State.goto, State.acquire, State.release, hfin, hf,
      packaged_task.call, Request.entry]
  | some func =>
    cases hm : (s.tasks i).mResult with
    | none =>
      cases hst : H.store func a <;>
        simp [exec, next, advance, State.goto, State.acquire, State.release, hfin, hf, hm, hst,
          packaged_task.call, Request.entry, Memory.alloc, hl, async_result.init]
    | some c =>
      cases hcell : (s.mem.cells c).mResult with
      | some p =>
        simp [exec, next, advance, State.goto, State.acquire, State.release, hfin, hf, hm,
          hcell, packaged_task.call, Request.entry, hl]
      | none =>
        cases hst : H.store func a <;>
          simp [exec, next, advance, State.goto, State.acquire, State.release, hfin, hf, hm,
            hst, hcell, packaged_task.call, Request.entry, hl]

/-- `wait()` by a thread that takes its steps in a row, with every mutex free: it has
returned exactly when `future.wait` returns, and it is parked on the condition variable,
the mutex released, exactly when `future.wait` is `blocked`.  Nothing else changes. -/
theorem wait_uninterrupted (H : result_helper R P) (s : State A E R P) (tid : Nat) (h : future)
    (hfin : (s.threads tid).finished = true) (hfree : ∀ c, s.locks c = none) :
    (exec H s [.start tid (.wait h), .step tid, .step tid, .step tid]).mem = s.mem ∧
    (exec H s [.start tid (.wait h), .step tid, .step tid, .step tid]).locks = s.locks ∧
    (exec H s [.start tid (.wait h), .step tid, .step tid, .step tid]).threads tid =
      (match (h.wait s.mem : Completion E Unit), h.mResult with
        | .blocked, some c => .wait_parked .user c
        | res, _ => .done_unit res) := by
  have hl : s.locks = fun _ => none := funext hfree
  cases hm : h.mResult with
  | none =>
    simp [exec, next, advance, State.goto, hfin, hm, future.wait, Request.entry]
  | some c =>
    cases hx : (s.mem.cells c).mResult <;> cases hy : (s.mem.cells c).mException <;>
      simp [exec, next, advance, State.goto, State.acquire, State.release, State.park, State.wake, hfin, hm, hx, hy,
        future.wait, Request.entry, hl]

/-- `get()` by a thread that takes its steps in a row, with every mutex free.  When
`future.get` is `blocked`, the thread is parked on the condition variable after three
steps, the mutex released; otherwise `get()` has ended after four steps with what
`future.get` reports.  Heap and mutexes are as before. -/
theorem get_uninterrupted (H : result_helper R P) (s : State A E R P) (tid : Nat) (h : future)
    (hfin : (s.threads tid).finished = true) (hfree : ∀ c, s.locks c = none) :
    ((h.get H s.mem : Completion E R) = .blocked →
      (exec H s [.start tid (.get h), .step tid, .step tid, .step tid]).mem = s.mem ∧
      (exec H s [.start tid (.get h), .step tid, .step tid, .step tid]).locks = s.locks ∧
      ∃ c, h.mResult = some c ∧
        (exec H s [.start tid (.get h), .step tid, .step tid, .step tid]).threads tid
          = .wait_parked .get c) ∧
    ((h.get H s.mem : Completion E R) ≠ .blocked →
      (exec H s [.start tid (.get h), .step tid, .step tid, .step tid, .step tid]).mem
        = s.mem ∧
      (exec H s [.start tid (.get h), .step tid, .step tid, .step tid, .step tid]).locks
        = s.locks ∧
      (exec H s [.start tid (.get h), .step tid, .step tid, .step tid, .step tid]).threads tid
        = .done_value (h.get H s.mem)) := by
  have hl : s.locks = fun _ => none := funext hfree
  cases hm : h.mResult with
  | none =>
    simp [exec, next, advance, State.goto, hfin, hm, future.get, Request.entry]
  | some c =>
    cases hx : (s.mem.cells c).mResult <;> cases hy : (s.mem.cells c).mException <;>
      simp [exec, next, advance, State.goto, State.acquire, State.release, State.park, State.wake, hfin, hm, hx, hy,
        future.get, future.wait, Request.entry, hl]

/-- `is_ready()` by a thread that takes its steps in a row, with every mutex free,
returns what `future.is_ready` returns and changes nothing. -/
theorem is_ready_uninterrupted (H : result_helper R P) (s : State A E R P) (tid : Nat)
    (h : future) (hfin : (s.threads tid).finished = true) (hfree : ∀ c, s.locks c = none) :
    (exec H s [.start tid (.is_ready h), .step tid, .step tid, .step tid]).mem = s.mem ∧
    (exec H s [.start tid (.is_ready h), .step tid, .step tid, .step tid]).locks = s.locks ∧
    (exec H s [.start tid (.is_ready h), .step tid, .step tid, .step tid]).threads tid =
      .done_bool (h.is_ready s.mem) := by
  have hl : s.locks = fun _ => none := funext hfree
  cases hm : h.mResult with
  | none =>
    simp [exec, next, advance, State.goto, hfin, hm, future.is_ready, Request.entry]
  | some c =>
    simp [exec, next, advance, State.goto, State.acquire, State.release, hfin, hm,
      future.is_ready, Request.entry, hl]


/-- The frame of a thread after its step from `get_check`, on a ready cell: `get()` ends
with what `future.get` reports on the heap of that state. -/
theorem step_get_check (H : result_helper R P) (s : State A E R P) (u c : Nat)
    (hu : s.threads u = .get_check c) (hr : (s.mem.cells c).ready = true) :
    (next H s (.step u)).threads u = .done_value (future.get H ⟨some c⟩ s.mem) := by
  have h1 : advance H s u =
      (match (s.mem.cells c).mException, (s.mem.cells c).mResult with
        | false, some p => some (s.goto u (.done_value (.returned (H.fetch p))))
        | _, _ => some (s.goto u (.done_value (.runtime_error invalid_future)))) := by
    unfold advance
    simp only [hu]
  show ((advance H s u).getD s).threads u = _
  rw [h1]
  unfold async_result.ready at hr
  cases hx : (s.mem.cells c).mResult <;> cases hy : (s.mem.cells c).mException <;>
    simp_all [State.goto, future.get, future.wait]

/-- The frame of a thread after its step from `wait_locked`. -/
theorem step_wait_locked (H : result_helper R P) (s : State A E R P) (u c : Nat) (k : Caller)
    (hu : s.threads u = .wait_locked k c) :
    (next H s (.step u)).threads u =
      if (s.mem.cells c).ready then
        (match k with
          | .user => .done_unit (.returned ())
          | .get => .get_check c)
      else .wait_parked k c := by
  have h1 : advance H s u =
      (if (s.mem.cells c).mResult.isNone && !(s.mem.cells c).mException then
        some (s.release u c (.wait_parked k c))
      else
        match k with
        | .user => some (s.release u c (.done_unit (.returned ())))
        | .get => some (s.release u c (.get_check c))) := by
    unfold advance
    simp only [hu]
    cases k <;> rfl
  show ((advance H s u).getD s).threads u = _
  rw [h1]
  unfold async_result.ready
  cases hx : (s.mem.cells c).mResult <;> cases hy : (s.mem.cells c).mException <;>
    cases k <;> simp [State.release, State.goto]

/-- C9. Take any program with any number of threads, run from its start by any sequence
of events, and a thread that is inside `wait()` on a handle bound to the existing cell
`c`, holding the mutex and about to test the loop guard.  Its step returns from `wait()`
if and only if the cell is ready; when the cell is not ready the step parks the thread
again.  At that moment no invocation is between taking the mutex of the cell and
leaving (none is testing, running its callable, or storing).  So no waiter, however many
there are, returns before the publication into the cell has completed.  And when the
cell is ready, then in every state reached later by any events: the
cell is ready, `get` on it reports what it reports now, a `get()` of any thread `u` that
has come back from its `wait()` ends with exactly that, and no `wait()` on the cell
parks any more; with no failure flag on the cell, what `get` reports is the stored
value. -/
theorem C9_waiters_return_after_publication (H : result_helper R P) (w : World A E R P)
    (evs later : List (Event A)) (tid c u : Nat)
    (hc : c < (exec H (initial w) evs).mem.next)
    (hw : (exec H (initial w) evs).threads tid = .wait_locked .user c) :
    ((next H (exec H (initial w) evs) (.step tid)).threads tid = .done_unit (.returned ()) ↔
      ((exec H (initial w) evs).mem.cells c).ready = true) ∧
    (((exec H (initial w) evs).mem.cells c).ready = false →
      (next H (exec H (initial w) evs) (.step tid)).threads tid = .wait_parked .user c) ∧
    (∀ v func a, (exec H (initial w) evs).threads v ≠ .call_locked func a c ∧
      (exec H (initial w) evs).threads v ≠ .call_running func a c) ∧
    (((exec H (initial w) evs).mem.cells c).ready = true →
      ((exec H (next H (exec H (initial w) evs) (.step tid)) later).mem.cells c).ready = true ∧
      (future.get H ⟨some c⟩ (exec H (next H (exec H (initial w) evs) (.step tid)) later).mem :
        Completion E R) = future.get H ⟨some c⟩ (exec H (initial w) evs).mem ∧
      ((exec H (next H (exec H (initial w) evs) (.step tid)) later).threads u = .get_check c →
        (next H (exec H (next H (exec H (initial w) evs) (.step tid)) later) (.step u)).threads u
          = .done_value (future.get H ⟨some c⟩ (exec H (initial w) evs).mem)) ∧
      (∀ k, (exec H (next H (exec H (initial w) evs) (.step tid)) later).threads u
          = .wait_locked k c →
        (next H (exec H (next H (exec H (initial w) evs) (.step tid)) later) (.step u)).threads u
          ≠ .wait_parked k c) ∧
      (((exec H (initial w) evs).mem.cells c).mException = false →
        ∃ p, ((exec H (initial w) evs).mem.cells c).mResult = some p ∧
          (future.get H ⟨some c⟩ (exec H (initial w) evs).mem : Completion E R)
            = .returned (H.fetch p))) := by
  generalize hs : exec H (initial w) evs = s at hc hw
  have hok : s.ok := by rw [← hs]; exact ok_exec H evs _ (ok_initial w)
  have hstep := step_wait_locked H s tid c .user hw
  refine ⟨?_, ?_, ?_, ?_⟩
  · rw [hstep]
    cases hr : (s.mem.cells c).ready <;> simp
  · intro hr
    rw [hstep, hr]
    simp
  · have hmine : s.locks c = some tid := hok.1 tid c (by rw [hw]; simp [Frame.holds])
    have hsame : ∀ v, (s.threads v).holds c = true → v = tid := by
      intro v hv
      have := hok.1 v c hv
      rw [hmine] at this
      exact (Option.some.inj this).symm
    intro v func a
    constructor
    · intro hv
      have := hsame v (by rw [hv]; simp [Frame.holds])
      rw [this, hw] at hv
      cases hv
    · intro hv
      have := hsame v (by rw [hv]; simp [Frame.holds])
      rw [this, hw] at hv
      cases hv
  · intro hr
    have hev := evolves_exec H (Event.step tid :: later) s hok c hc
    have hev2 : (s.mem.cells c).evolves
        ((exec H (next H s (.step tid)) later).mem.cells c) := hev.2
    generalize exec H (next H s (.step tid)) later = s2 at hev2
    have hr2 := async_result.ready_of_evolves hev2 hr
    have hget := (future.get_of_evolves (E := E) H ⟨some c⟩ s.mem s2.mem c rfl hr hev2).2.2
    refine ⟨hr2, hget, ?_, ?_, ?_⟩
    · intro hu
      rw [step_get_check H s2 u c hu hr2, hget]
    · intro k hu
      rw [step_wait_locked H s2 u c k hu, hr2]
      cases k <;> simp
    · intro he
      unfold async_result.ready at hr
      cases hx : (s.mem.cells c).mResult with
      | none => simp [hx, he] at hr
      | some p => exact ⟨p, rfl, by simp [future.get, future.wait, hx, he]⟩

/-- C10, amended. In every state a program with threads can reach from its start: while
the wrapped callable of an invocation is executing, the invoking thread holds the mutex
of the cell, and a thread that polls that cell (`ready()`, about to take the mutex)
cannot move.  A polling thread is held up exactly when the mutex is taken; when it is
free, its next two steps take the mutex, read `mResult || mException` and return that
value, leaving the heap as it is.  `is_ready()` itself either returns false at once (no
cell) or goes on to `ready()`; no step of a poll parks on the condition variable. -/
theorem C10_poll_waits_for_the_mutex (H : result_helper R P) (w : World A E R P)
    (evs : List (Event A)) :
    (∀ tid func a c, (exec H (initial w) evs).threads tid = .call_running func a c →
      (exec H (initial w) evs).locks c = some tid ∧
      ∀ u, (exec H (initial w) evs).threads u = .ready_lock c →
        advance H (exec H (initial w) evs) u = none) ∧
    (∀ u c, (exec H (initial w) evs).threads u = .ready_lock c →
      (advance H (exec H (initial w) evs) u = none ↔
        (exec H (initial w) evs).locks c ≠ none)) ∧
    (∀ u c, (exec H (initial w) evs).threads u = .ready_lock c →
      (exec H (initial w) evs).locks c = none →
      (exec H (exec H (initial w) evs) [.step u, .step u]).threads u
        = .done_bool ((exec H (initial w) evs).mem.cells c).ready ∧
      (exec H (exec H (initial w) evs) [.step u, .step u]).mem
        = (exec H (initial w) evs).mem) ∧
    (∀ u h, (exec H (initial w) evs).threads u = .is_ready_entry h →
      (next H (exec H (initial w) evs) (.step u)).threads u =
        (match h.mResult with
          | none => .done_bool false
          | some c => .ready_lock c)) := by
  generalize hs : exec H (initial w) evs = s
  have hok : s.ok := by rw [← hs]; exact ok_exec H evs _ (ok_initial w)
  have hpoll : ∀ u c, s.threads u = .ready_lock c →
      (advance H s u = none ↔ s.locks c ≠ none) := by
    intro u c hu
    unfold advance
    rw [hu]
    simp only [State.acquire]
    cases hl : s.locks c <;> simp
  refine ⟨?_, hpoll, ?_, ?_⟩
  · intro tid func a c hrun
    have hheld : s.locks c = some tid := hok.1 tid c (by rw [hrun]; simp [Frame.holds])
    refine ⟨hheld, ?_⟩
    intro u hu
    rw [hpoll u c hu, hheld]
    simp
  · intro u c hu hfree
    have h1 : advance H s u = some (⟨s.mem, s.tasks, Function.update s.locks c (some u),
        Function.update s.threads u (.ready_locked c)⟩) := by
      unfold advance
      rw [hu]
      simp [State.acquire, hfree, State.goto]
    simp only [exec, List.foldl, next, h1, Option.getD_some]
    unfold advance
    simp [State.release, State.goto]
  · intro u h hu
    have h1 : advance H s u =
        (match h.mResult with
          | none => some (s.goto u (.done_bool false))
          | some c => some (s.goto u (.ready_lock c))) := by
      unfold advance
      simp only [hu]
    show ((advance H s u).getD s).threads u = _
    rw [h1]
    cases h.mResult <;> simp [State.goto]


/-- Two waiters parked on cell 0, then the publication of 42: thread 2 is about to test
the loop guard on the ready cell and returns; later thread 1, back from its own
`wait()`, gets 42. -/
theorem C9_waiters_return_after_publication_witness :
    0 < (exec (result_helper.primary Nat) (initial scenarioA_world) waiters_events).mem.next ∧
    (exec (result_helper.primary Nat) (initial scenarioA_world) waiters_events).threads 2
      = .wait_locked .user 0 ∧
    (next (result_helper.primary Nat)
      (exec (result_helper.primary Nat)
        (next (result_helper.primary Nat)
          (exec (result_helper.primary Nat) (initial scenarioA_world) waiters_events)
          (.step 2)) waiters_later) (.step 1)).threads 1
      = .done_value (.returned 42) :=
  ⟨by decide, rfl,
    ((C9_waiters_return_after_publication (result_helper.primary Nat) scenarioA_world
      waiters_events waiters_later 2 0 1 (by decide) rfl).2.2.2 rfl).2.2.1 rfl⟩

/-- Against C10. In `poll_state` the callable of the invocation by thread 0 is
executing and thread 0 holds the mutex of cell 0.  Thread 1, polling that cell, cannot
move, however often it is scheduled; only after thread 0 has finished the callable and
left the invocation does the poll return. -/
theorem C10_counterexample :
    poll_state.threads 0 = .call_running (fun _ => .ok 42) () 0 ∧
    poll_state.locks 0 = some 0 ∧
    poll_state.threads 1 = .ready_lock 0 ∧
    advance (result_helper.primary Nat) poll_state 1 = none ∧
    (exec (result_helper.primary Nat) poll_state [.step 1, .step 1, .step 1]).threads 1
      = .ready_lock 0 ∧
    (exec (result_helper.primary Nat) poll_state [.step 0, .step 1, .step 1]).threads 1
      = .done_bool true := by
  refine ⟨rfl, rfl, rfl, rfl, rfl, rfl⟩

theorem C10_poll_waits_for_the_mutex_witness :
    (exec (result_helper.primary Nat) (initial scenarioA_world) poll_events).threads 0
      = .call_running (fun _ => .ok 42) () 0 ∧
    (exec (result_helper.primary Nat) (initial scenarioA_world) poll_events).locks 0
      = some 0 :=
  ⟨rfl, ((C10_poll_waits_for_the_mutex (result_helper.primary Nat) scenarioA_world
    poll_events).1 0 (fun _ => .ok 42) () 0 rfl).1⟩

end Conc

end tthread
